import Mathlib

/-!
Verification of the Mind-Support backend moderation pipeline.

This file gives a shallow embedding, in Lean 4, of the core decision
pipeline of the repository: the keyword scanner
(src/services/keywordScanner.ts), the idempotency guard
(src/services/idempotency.ts), the webhook event router and severity
handlers, and the moderation resolution workflow
(src/controllers/authController.ts).  JavaScript strings are modelled as
lists of characters; the ASCII fragments of the regex character classes
are modelled explicitly; machine timestamps are naturals (milliseconds);
fallible storage and provider calls are driven by explicit environment
records so that both the success and the failure paths of the source are
represented.
-/

namespace MindSupport

namespace Scanner

/-- The JS regex class backslash-w restricted to ASCII: letters, digits and
underscore (code points 48-57, 65-90, 97-122, 95). -/
def isWordChar (c : Char) : Bool :=
  decide ((48 ≤ c.toNat ∧ c.toNat ≤ 57) ∨ (65 ≤ c.toNat ∧ c.toNat ≤ 90) ∨
    (97 ≤ c.toNat ∧ c.toNat ≤ 122) ∨ c.toNat = 95)

/-- The JS regex class backslash-s restricted to ASCII: space, tab, LF, VT,
FF, CR. -/
def isSpaceChar (c : Char) : Bool :=
  decide (c.toNat = 32 ∨ c.toNat = 9 ∨ c.toNat = 10 ∨ c.toNat = 13 ∨
    c.toNat = 11 ∨ c.toNat = 12)

/-- ASCII case folding as performed by `String.prototype.toLowerCase` on the
ASCII range. -/
def toLowerJS (c : Char) : Char :=
  if 65 ≤ c.toNat ∧ c.toNat ≤ 90 then Char.ofNat (c.toNat + 32) else c

/-- ASCII upper-casing, used to state case-insensitivity properties. -/
def toUpperJS (c : Char) : Char :=
  if 97 ≤ c.toNat ∧ c.toNat ≤ 122 then Char.ofNat (c.toNat - 32) else c

/-- One character of the replacement pass
`.replace(/[^\w\s]/g, ' ')` of `normalizeText`. -/
def punctToSpace (c : Char) : Char :=
  if !isWordChar c && !isSpaceChar c then ' ' else c

/-- Whitespace collapsing `.replace(/\s+/g, ' ')`: every maximal run of
whitespace becomes a single space.  The boolean argument records whether the
previous character was whitespace. -/
def collapseAux : Bool → List Char → List Char
  | _, [] => []
  | prevSpace, c :: rest =>
    if isSpaceChar c then
      if prevSpace then collapseAux true rest
      else ' ' :: collapseAux true rest
    else c :: collapseAux false rest

def collapseWs (s : List Char) : List Char := collapseAux false s

/-- State of the whitespace collapser after processing a list: whether the
last character seen was whitespace. -/
def endState : Bool → List Char → Bool
  | b, [] => b
  | _, c :: rest => endState (isSpaceChar c) rest

/-- The `trim()` step: drop leading and trailing whitespace. -/
def trimWs (s : List Char) : List Char :=
  ((s.dropWhile isSpaceChar).reverse.dropWhile isSpaceChar).reverse

/-- Embedding of `KeywordScannerService.normalizeText`: lower-case, replace
punctuation with spaces, collapse whitespace runs, trim. -/
def normalizeText (t : List Char) : List Char :=
  trimWs (collapseWs ((t.map toLowerJS).map punctToSpace))

/-- Severity levels of `KeywordSeverity` in src/types. -/
inductive KeywordSeverity where
  | none
  | low
  | medium
  | high
deriving DecidableEq, Repr

/-- Keyword actions of `KeywordAction` in src/types. -/
inductive KeywordAction where
  | flag
  | hide
  | escalate
  | notify
deriving DecidableEq, Repr

/-- Embedding of `KeywordScannerService.getSeverityScore`. -/
def getSeverityScore : KeywordSeverity → Nat
  | .none => 0
  | .low => 1
  | .medium => 2
  | .high => 3

/-- A moderation keyword rule (model of `IModerationKeyword`; the `enabled`
flag is resolved by the storage query and the cache holds enabled rules). -/
structure ModerationKeyword where
  word : List Char
  severity : KeywordSeverity
  action : KeywordAction
  isRegex : Bool
deriving DecidableEq, Repr

/-- A single keyword match (model of `KeywordMatch` in src/types). -/
structure KeywordMatch where
  word : List Char
  severity : KeywordSeverity
  action : KeywordAction
  position : Nat
deriving DecidableEq, Repr

/-- Scan result (model of `ScanResult` in src/types; the source field
`matches` is called `matchList` here because `matches` is reserved in
Lean). -/
structure ScanResult where
  severity : KeywordSeverity
  matchList : List KeywordMatch
  severityScore : Nat
deriving DecidableEq, Repr

/-- Whether the case-folded characters of `w` occur in `t` starting at
index `i` (the literal-match core of the regex built with the `i` flag). -/
def matchesAt (w t : List Char) (i : Nat) : Bool :=
  ((t.drop i).take w.length).map toLowerJS == w.map toLowerJS

/-- Whether the character at index `i` of `t` exists and is a word
character. -/
def isWordAt (t : List Char) (i : Nat) : Bool :=
  decide (i < t.length) && isWordChar (t.getD i ' ')

/-- Whether the character just before boundary position `p` is a word
character (false at the start of the text). -/
def prevIsWord (t : List Char) (p : Nat) : Bool :=
  decide (p ≠ 0) && isWordAt t (p - 1)

/-- JS word-boundary assertion backslash-b at position `p` of `t`: exactly
one side of the position is a word character. -/
def boundaryAt (t : List Char) (p : Nat) : Bool :=
  prevIsWord t p != isWordAt t p

/-- Whether the boundary-anchored pattern (backslash-b, the literal word,
backslash-b) matches `t` at position `i`. -/
def litHitAt (w t : List Char) (i : Nat) : Bool :=
  boundaryAt t i && matchesAt w t i && boundaryAt t (i + w.length)

/-- Leftmost match of the boundary-anchored literal pattern, as
`regex.exec` returns it for the pattern built in the non-regex branch of
`scanText` (for terms free of regex metacharacters). -/
def litFind (w t : List Char) : Option Nat :=
  ((List.range (t.length + 1)).find? (fun i => litHitAt w t i))

/-- Environment for one scan: the behaviour of `new RegExp(word,
'gi').exec(normalizedText)` for pattern rules.  An `error` value models a
throwing rule evaluation (malformed pattern), which `scanText` catches. -/
structure ScanEnv where
  regexExec : List Char → List Char → Except String (Option Nat)

/-- Per-rule matching of the `scanText` loop body: regex rules are
interpreted by the environment, literal rules by the boundary-anchored
matcher. -/
def scanKeyword (env : ScanEnv) (k : ModerationKeyword) (normText : List Char) :
    Except String (Option Nat) :=
  if k.isRegex then env.regexExec k.word normText
  else Except.ok (litFind k.word normText)

/-- Score of one recorded match. -/
def matchScore (m : KeywordMatch) : Nat := getSeverityScore m.severity

/-- Maximum of the per-match scores of a list of matches (0 when empty). -/
def maxScore (ms : List KeywordMatch) : Nat :=
  ms.foldr (fun m acc => max (matchScore m) acc) 0

/-- Accumulator step of the `scanText` keyword loop: a failing rule is
swallowed, a found match is appended and the running maximum severity is
updated only on a strictly larger score. -/
def scanStep (env : ScanEnv) (normText : List Char)
    (acc : List KeywordMatch × KeywordSeverity × Nat) (k : ModerationKeyword) :
    List KeywordMatch × KeywordSeverity × Nat :=
  match scanKeyword env k normText with
  | .error _ => acc
  | .ok Option.none => acc
  | .ok (Option.some pos) =>
    let m : KeywordMatch := ⟨k.word, k.severity, k.action, pos⟩
    let ms := acc.1 ++ [m]
    if getSeverityScore k.severity > acc.2.2 then (ms, k.severity, getSeverityScore k.severity)
    else (ms, acc.2.1, acc.2.2)

/-- The matches and running maxima accumulated by the keyword loop, in rule
iteration order (before the final sort). -/
def scanFold (env : ScanEnv) (ks : List ModerationKeyword) (normText : List Char) :
    List KeywordMatch × KeywordSeverity × Nat :=
  ks.foldl (scanStep env normText) ([], KeywordSeverity.none, 0)

/-- Comparison used by the final `matches.sort((a, b) => a.position -
b.position)`. -/
def posLe (a b : KeywordMatch) : Prop := a.position ≤ b.position

instance : DecidableRel posLe := fun a b => Nat.decLe a.position b.position

instance : IsTotal KeywordMatch posLe := ⟨fun a b => Nat.le_total a.position b.position⟩

instance : IsTrans KeywordMatch posLe := ⟨fun _ _ _ h h2 => Nat.le_trans h h2⟩

/-- Embedding of `KeywordScannerService.scanText` (the keyword list is the
one returned by `loadKeywords`, which is modelled separately). -/
def scanText (env : ScanEnv) (ks : List ModerationKeyword) (text : List Char) :
    ScanResult :=
  if trimWs text = [] then ⟨KeywordSeverity.none, [], 0⟩
  else
    let normalizedText := normalizeText text
    let acc := scanFold env ks normalizedText
    ⟨acc.2.1, List.insertionSort posLe acc.1, acc.2.2⟩

/-! Character-level lemmas about the ASCII case maps and character
classes. -/

theorem toNat_char_ofNat (n : Nat) (h : n < 55296) : (Char.ofNat n).toNat = n := by
  have hv : n.isValidChar := Or.inl h
  rw [Char.ofNat, dif_pos hv]
  simp [Char.ofNatAux, Char.toNat, UInt32.toNat, BitVec.toNat_ofNatLt]

theorem toNat_toUpperJS (c : Char) :
    (toUpperJS c).toNat =
      if 97 ≤ c.toNat ∧ c.toNat ≤ 122 then c.toNat - 32 else c.toNat := by
  unfold toUpperJS
  by_cases h : 97 ≤ c.toNat ∧ c.toNat ≤ 122
  · rw [if_pos h, if_pos h, toNat_char_ofNat _ (by omega)]
  · rw [if_neg h, if_neg h]

theorem toNat_toLowerJS (c : Char) :
    (toLowerJS c).toNat =
      if 65 ≤ c.toNat ∧ c.toNat ≤ 90 then c.toNat + 32 else c.toNat := by
  unfold toLowerJS
  by_cases h : 65 ≤ c.toNat ∧ c.toNat ≤ 90
  · rw [if_pos h, if_pos h, toNat_char_ofNat _ (by omega)]
  · rw [if_neg h, if_neg h]

theorem toLowerJS_toUpperJS (c : Char) : toLowerJS (toUpperJS c) = toLowerJS c := by
  unfold toLowerJS toUpperJS
  by_cases h : 97 ≤ c.toNat ∧ c.toNat ≤ 122
  · rw [if_pos h]
    have h1 : (Char.ofNat (c.toNat - 32)).toNat = c.toNat - 32 := toNat_char_ofNat _ (by omega)
    rw [if_pos (by omega), if_neg (by omega), h1]
    have h2 : c.toNat - 32 + 32 = c.toNat := by omega
    rw [h2, Char.ofNat_toNat]
  · rw [if_neg h]

theorem isSpaceChar_toUpperJS (c : Char) : isSpaceChar (toUpperJS c) = isSpaceChar c := by
  unfold isSpaceChar
  rw [decide_eq_decide, toNat_toUpperJS]
  by_cases h : 97 ≤ c.toNat ∧ c.toNat ≤ 122
  · rw [if_pos h]; omega
  · rw [if_neg h]

theorem isWordChar_toLowerJS (c : Char) : isWordChar (toLowerJS c) = isWordChar c := by
  unfold isWordChar
  rw [decide_eq_decide, toNat_toLowerJS]
  by_cases h : 65 ≤ c.toNat ∧ c.toNat ≤ 90
  · rw [if_pos h]; omega
  · rw [if_neg h]

theorem toLowerJS_of_not_word (c : Char) (h : isWordChar c = false) : toLowerJS c = c := by
  unfold isWordChar at h
  unfold toLowerJS
  rw [if_neg]
  intro hc
  rw [decide_eq_false_iff_not] at h
  exact h (Or.inr (Or.inl hc))

theorem isSpaceChar_punctToSpace_of_not_word (c : Char) (h : isWordChar c = false) :
    isSpaceChar (punctToSpace c) = true := by
  unfold punctToSpace
  by_cases hs : isSpaceChar c
  · rw [if_neg (by simp [hs])]
    exact hs
  · rw [if_pos (by simp [h, hs])]
    decide

/-! Lemmas about whitespace collapsing and trimming. -/

theorem collapseAux_append (b : Bool) (x y : List Char) :
    collapseAux b (x ++ y) = collapseAux b x ++ collapseAux (endState b x) y := by
  induction x generalizing b with
  | nil => rfl
  | cons c rest ih =>
    by_cases hc : isSpaceChar c
    · cases b <;> simp [collapseAux, endState, hc, ih]
    · cases b <;> simp [collapseAux, endState, hc, ih]

theorem collapseAux_true_all_space (q : List Char)
    (hq : ∀ c ∈ q, isSpaceChar c = true) : collapseAux true q = [] := by
  induction q with
  | nil => rfl
  | cons c rest ih =>
    have hc : isSpaceChar c = true := hq c (by simp)
    simp only [collapseAux, hc, if_pos, if_true]
    exact ih (fun x hx => hq x (List.mem_cons_of_mem _ hx))

theorem collapseAux_all_space (q : List Char) (b : Bool)
    (hq : ∀ c ∈ q, isSpaceChar c = true) :
    ∀ c ∈ collapseAux b q, isSpaceChar c = true := by
  cases q with
  | nil => intro c hc; cases b <;> simp [collapseAux] at hc
  | cons d rest =>
    have hd : isSpaceChar d = true := hq d (by simp)
    have hr : collapseAux true rest = [] :=
      collapseAux_true_all_space rest (fun x hx => hq x (List.mem_cons_of_mem _ hx))
    intro c hc
    cases b <;> simp [collapseAux, hd, hr] at hc
    subst hc
    decide

theorem collapseAux_false_all_space (q : List Char)
    (hq : ∀ c ∈ q, isSpaceChar c = true) (hne : q ≠ []) :
    collapseAux false q = [' '] := by
  cases q with
  | nil => exact absurd rfl hne
  | cons c rest =>
    have hc : isSpaceChar c = true := hq c (by simp)
    have hr := collapseAux_true_all_space rest (fun x hx => hq x (List.mem_cons_of_mem _ hx))
    simp [collapseAux, hc, hr]

theorem endState_all_space (q : List Char)
    (hq : ∀ c ∈ q, isSpaceChar c = true) (hne : q ≠ []) (b : Bool) :
    endState b q = true := by
  induction q generalizing b with
  | nil => exact absurd rfl hne
  | cons c rest ih =>
    cases rest with
    | nil => simpa [endState] using hq c (by simp)
    | cons d rest2 =>
      exact ih (fun x hx => hq x (List.mem_cons_of_mem _ hx)) (by simp) (isSpaceChar c)

theorem dropWhile_collapseAux (x : List Char) (b1 b2 : Bool) :
    (collapseAux b1 x).dropWhile isSpaceChar = (collapseAux b2 x).dropWhile isSpaceChar := by
  cases x with
  | nil => rfl
  | cons c rest =>
    by_cases hc : isSpaceChar c
    · have hsp : isSpaceChar ' ' = true := by decide
      cases b1 <;> cases b2 <;> simp [collapseAux, hc, List.dropWhile_cons, hsp]
    · cases b1 <;> cases b2 <;> simp [collapseAux, hc]

theorem trimWs_collapseAux_b (x : List Char) (b1 b2 : Bool) :
    trimWs (collapseAux b1 x) = trimWs (collapseAux b2 x) := by
  unfold trimWs
  rw [dropWhile_collapseAux x b1 b2]

theorem trimWs_append_all_space (u r : List Char)
    (hr : ∀ c ∈ r, isSpaceChar c = true) : trimWs (u ++ r) = trimWs u := by
  unfold trimWs
  rw [List.dropWhile_append]
  by_cases h : (u.dropWhile isSpaceChar).isEmpty
  · rw [if_pos h]
    have hu : u.dropWhile isSpaceChar = [] := List.isEmpty_iff.mp h
    have hr2 : r.dropWhile isSpaceChar = [] := List.dropWhile_eq_nil_iff.mpr hr
    rw [hu, hr2]
  · rw [if_neg h]
    rw [List.reverse_append]
    rw [List.dropWhile_append_of_pos (fun a ha => hr a (List.mem_reverse.mp ha))]

theorem trimWs_eq_nil_iff (l : List Char) :
    trimWs l = [] ↔ ∀ c ∈ l, isSpaceChar c = true := by
  induction l with
  | nil => simp [trimWs]
  | cons c rest ih =>
    by_cases hc : isSpaceChar c
    · have h1 : trimWs (c :: rest) = trimWs rest := by
        unfold trimWs
        rw [List.dropWhile_cons_of_pos hc]
      rw [h1, ih]
      constructor
      · intro h x hx
        rcases List.mem_cons.mp hx with rfl | hx2
        · exact hc
        · exact h x hx2
      · intro h x hx
        exact h x (List.mem_cons_of_mem _ hx)
    · constructor
      · intro h
        exfalso
        unfold trimWs at h
        rw [List.dropWhile_cons_of_neg hc] at h
        rw [List.reverse_eq_nil_iff, List.dropWhile_eq_nil_iff] at h
        exact hc (h c (by simp))
      · intro h
        exact absurd (h c (by simp)) hc

theorem trimWs_map_toUpperJS (l : List Char) :
    trimWs (l.map toUpperJS) = (trimWs l).map toUpperJS := by
  have hcomp : (isSpaceChar ∘ toUpperJS) = isSpaceChar := funext isSpaceChar_toUpperJS
  unfold trimWs
  rw [List.dropWhile_map, hcomp, ← List.map_reverse, List.dropWhile_map, hcomp,
    ← List.map_reverse]

/-! Behaviour of `normalizeText` under upper-casing and under surrounding
punctuation. -/

theorem space_of_punct_lower_nonword (a : Char) (haw : isWordChar a = false) :
    isSpaceChar (punctToSpace (toLowerJS a)) = true := by
  rw [toLowerJS_of_not_word a haw]
  exact isSpaceChar_punctToSpace_of_not_word a haw

theorem normalizeText_map_toUpperJS (t : List Char) :
    normalizeText (t.map toUpperJS) = normalizeText t := by
  unfold normalizeText
  simp only [List.map_map]
  have hfun : toLowerJS ∘ toUpperJS = toLowerJS := funext toLowerJS_toUpperJS
  rw [← Function.comp_assoc, Function.comp_assoc punctToSpace, hfun]

theorem normalizeText_append_nonword (t p : List Char)
    (hp : ∀ c ∈ p, isWordChar c = false) :
    normalizeText (t ++ p) = normalizeText t := by
  unfold normalizeText collapseWs
  simp only [List.map_map]
  rw [List.map_append, collapseAux_append]
  have hq : ∀ c ∈ p.map (punctToSpace ∘ toLowerJS), isSpaceChar c = true := by
    intro c hc
    rw [List.mem_map] at hc
    obtain ⟨a, ha, rfl⟩ := hc
    exact space_of_punct_lower_nonword a (hp a ha)
  exact trimWs_append_all_space _ _ (collapseAux_all_space _ _ hq)

theorem normalizeText_prepend_nonword (t q : List Char)
    (hq : ∀ c ∈ q, isWordChar c = false) :
    normalizeText (q ++ t) = normalizeText t := by
  unfold normalizeText collapseWs
  simp only [List.map_map]
  rw [List.map_append, collapseAux_append]
  have hq2 : ∀ c ∈ q.map (punctToSpace ∘ toLowerJS), isSpaceChar c = true := by
    intro c hc
    rw [List.mem_map] at hc
    obtain ⟨a, ha, rfl⟩ := hc
    exact space_of_punct_lower_nonword a (hq a ha)
  by_cases hn : q.map (punctToSpace ∘ toLowerJS) = []
  · rw [hn]
    rw [show collapseAux false ([] : List Char) = [] from rfl, List.nil_append]
    rfl
  · rw [collapseAux_false_all_space _ hq2 hn, endState_all_space _ hq2 hn]
    have h1 : trimWs ([' '] ++ collapseAux true (t.map (punctToSpace ∘ toLowerJS))) =
        trimWs (collapseAux true (t.map (punctToSpace ∘ toLowerJS))) := by
      unfold trimWs
      rw [List.singleton_append, List.dropWhile_cons_of_pos (by decide)]
    rw [h1]
    exact trimWs_collapseAux_b _ true false

/-! Behaviour of `scanText` under upper-casing and surrounding
punctuation. -/

theorem scanText_map_toUpperJS (env : ScanEnv) (ks : List ModerationKeyword)
    (t : List Char) :
    scanText env ks (t.map toUpperJS) = scanText env ks t := by
  unfold scanText
  by_cases h : trimWs t = []
  · rw [if_pos (by rw [trimWs_map_toUpperJS, h]; rfl), if_pos h]
  · have h2 : trimWs (t.map toUpperJS) ≠ [] := by
      rw [trimWs_map_toUpperJS]
      simp only [ne_eq, List.map_eq_nil_iff]
      exact h
    rw [if_neg h2, if_neg h, normalizeText_map_toUpperJS]

theorem scanText_surround_nonword (env : ScanEnv) (ks : List ModerationKeyword)
    (t p q : List Char) (hp : ∀ c ∈ p, isWordChar c = false)
    (hq : ∀ c ∈ q, isWordChar c = false) (ht : trimWs t ≠ []) :
    scanText env ks (q ++ t ++ p) = scanText env ks t := by
  have hnorm : normalizeText (q ++ t ++ p) = normalizeText t := by
    rw [normalizeText_append_nonword (q ++ t) p hp, normalizeText_prepend_nonword t q hq]
  have hne : trimWs (q ++ t ++ p) ≠ [] := by
    intro hall
    apply ht
    rw [trimWs_eq_nil_iff] at hall ⊢
    intro c hc
    exact hall c (by simp [hc])
  unfold scanText
  rw [if_neg hne, if_neg ht, hnorm]

/-! The running-maximum invariant of the scan loop. -/

theorem maxScore_cons (m : KeywordMatch) (rest : List KeywordMatch) :
    maxScore (m :: rest) = max (matchScore m) (maxScore rest) := rfl

theorem foldr_max_init (ms : List KeywordMatch) (a : Nat) :
    ms.foldr (fun m acc => max (matchScore m) acc) a = max (maxScore ms) a := by
  induction ms with
  | nil => simp [maxScore]
  | cons m rest ih => rw [List.foldr_cons, ih, maxScore_cons, Nat.max_assoc]

theorem maxScore_append_singleton (ms : List KeywordMatch) (m : KeywordMatch) :
    maxScore (ms ++ [m]) = max (maxScore ms) (matchScore m) := by
  unfold maxScore
  rw [List.foldr_append, List.foldr_cons, List.foldr_nil, Nat.max_zero]
  exact foldr_max_init ms (matchScore m)

theorem mem_le_maxScore (m : KeywordMatch) (ms : List KeywordMatch) (h : m ∈ ms) :
    matchScore m ≤ maxScore ms := by
  induction ms with
  | nil => cases h
  | cons x rest ih =>
    rw [maxScore_cons]
    rcases List.mem_cons.mp h with rfl | h2
    · exact Nat.le_max_left _ _
    · exact Nat.le_trans (ih h2) (Nat.le_max_right _ _)

theorem maxScore_perm (l1 l2 : List KeywordMatch) (h : l1.Perm l2) :
    maxScore l1 = maxScore l2 := by
  unfold maxScore
  haveI : LeftCommutative (fun (m : KeywordMatch) (acc : Nat) => max (matchScore m) acc) :=
    ⟨fun a b n => max_left_comm _ _ _⟩
  exact List.Perm.foldr_eq h 0

theorem severity_of_score_zero (s : KeywordSeverity) (h : getSeverityScore s = 0) :
    s = KeywordSeverity.none := by
  cases s <;> simp_all [getSeverityScore]

/-- Invariant of the scan-loop accumulator: the running score is the maximum
of the recorded match scores, and the running severity is the severity of
the first recorded match attaining it. -/
def AccInv (acc : List KeywordMatch × KeywordSeverity × Nat) : Prop :=
  acc.2.2 = maxScore acc.1 ∧
  (acc.1 = [] → acc.2.1 = KeywordSeverity.none) ∧
  (acc.1 ≠ [] → ∃ m, acc.1.find? (fun x => matchScore x == acc.2.2) = some m ∧
    acc.2.1 = m.severity)

theorem scanStep_inv (env : ScanEnv) (nt : List Char)
    (acc : List KeywordMatch × KeywordSeverity × Nat) (k : ModerationKeyword)
    (h : AccInv acc) : AccInv (scanStep env nt acc k) := by
  obtain ⟨ms, sev, sc⟩ := acc
  obtain ⟨h1, h2, h3⟩ := h
  simp only at h1 h2 h3
  cases hr : scanKeyword env k nt with
  | error e => exact ⟨by simp [scanStep, hr, h1], by simp [scanStep, hr]; exact h2,
      by simp [scanStep, hr]; exact h3⟩
  | ok o =>
    cases o with
    | none => exact ⟨by simp [scanStep, hr, h1], by simp [scanStep, hr]; exact h2,
        by simp [scanStep, hr]; exact h3⟩
    | some pos =>
      have hstep : scanStep env nt (ms, sev, sc) k =
          (let m2 : KeywordMatch := ⟨k.word, k.severity, k.action, pos⟩
           if getSeverityScore k.severity > sc then
             (ms ++ [m2], k.severity, getSeverityScore k.severity)
           else (ms ++ [m2], sev, sc)) := by
        simp [scanStep, hr]
      rw [hstep]
      simp only []
      by_cases hgt : getSeverityScore k.severity > sc
      · rw [if_pos hgt]
        refine ⟨?_, ?_, ?_⟩
        · simp only []
          rw [maxScore_append_singleton, ← h1]
          exact (Nat.max_eq_right (Nat.le_of_lt hgt)).symm
        · intro hnil
          simp at hnil
        · intro _
          refine ⟨⟨k.word, k.severity, k.action, pos⟩, ?_, rfl⟩
          simp only []
          rw [List.find?_append]
          have hnone : ms.find?
              (fun x => matchScore x == getSeverityScore k.severity) = none := by
            rw [List.find?_eq_none]
            intro x hx
            simp only [beq_iff_eq]
            have hle := mem_le_maxScore x ms hx
            omega
          rw [hnone]
          simp [List.find?, matchScore]
      · rw [if_neg hgt]
        have hle : getSeverityScore k.severity ≤ sc := Nat.le_of_not_lt hgt
        refine ⟨?_, ?_, ?_⟩
        · simp only []
          rw [maxScore_append_singleton, ← h1]
          exact (Nat.max_eq_left (by simpa [matchScore] using hle)).symm
        · intro hnil
          simp at hnil
        · intro _
          by_cases hms : ms = []
          · subst hms
            have hsc : sc = 0 := by simpa [maxScore] using h1
            have hk : getSeverityScore k.severity = 0 := by omega
            refine ⟨⟨k.word, k.severity, k.action, pos⟩, ?_, ?_⟩
            · simp [List.find?, matchScore, hk, hsc]
            · rw [h2 rfl, severity_of_score_zero _ hk]
          · obtain ⟨m, hfind, hsev⟩ := h3 hms
            refine ⟨m, ?_, hsev⟩
            simp only []
            rw [List.find?_append, hfind]
            rfl

theorem scanFold_inv (env : ScanEnv) (ks : List ModerationKeyword) (nt : List Char) :
    AccInv (scanFold env ks nt) := by
  unfold scanFold
  have base : AccInv ([], KeywordSeverity.none, 0) :=
    ⟨rfl, fun _ => rfl, fun hne => absurd rfl hne⟩
  suffices h : ∀ acc, AccInv acc → AccInv (ks.foldl (scanStep env nt) acc) from h _ base
  induction ks with
  | nil => exact fun acc h => h
  | cons k rest ih => exact fun acc h => ih _ (scanStep_inv env nt acc k h)

/-- C4: for every scanned text and every rule set, the returned `ScanResult`
satisfies: `severityScore` is the maximum of the per-match scores under
NONE=0, LOW=1, MEDIUM=2, HIGH=3 (0 when there are no matches); `severity` is
the severity of the first rule encountered that attains that maximum (NONE
when there are no matches); and the matches are ordered by ascending
position. -/
theorem claim_C4_scan_result_invariants (env : ScanEnv) (ks : List ModerationKeyword)
    (t : List Char) :
    (scanText env ks t).severityScore = maxScore (scanText env ks t).matchList ∧
    ((scanText env ks t).matchList = [] →
      (scanText env ks t).severity = KeywordSeverity.none ∧
        (scanText env ks t).severityScore = 0) ∧
    ((scanText env ks t).matchList ≠ [] →
      ∃ m, ((scanFold env ks (normalizeText t)).1.find?
          (fun x => matchScore x == (scanText env ks t).severityScore)) = some m ∧
        (scanText env ks t).severity = m.severity) ∧
    List.Sorted posLe (scanText env ks t).matchList := by
  by_cases hfast : trimWs t = []
  · have hres : scanText env ks t = ⟨KeywordSeverity.none, [], 0⟩ := by
      unfold scanText
      rw [if_pos hfast]
    rw [hres]
    exact ⟨rfl, fun _ => ⟨rfl, rfl⟩, fun hne => absurd rfl hne, List.sorted_nil⟩
  · obtain ⟨h1, h2, h3⟩ := scanFold_inv env ks (normalizeText t)
    have hres : scanText env ks t =
        ⟨(scanFold env ks (normalizeText t)).2.1,
          List.insertionSort posLe (scanFold env ks (normalizeText t)).1,
          (scanFold env ks (normalizeText t)).2.2⟩ := by
      unfold scanText
      rw [if_neg hfast]
    rw [hres]
    set F := scanFold env ks (normalizeText t) with hF
    have hperm : (List.insertionSort posLe F.1).Perm F.1 := List.perm_insertionSort posLe F.1
    refine ⟨?_, ?_, ?_, ?_⟩
    · exact h1.trans (maxScore_perm _ _ hperm.symm)
    · intro hnil
      simp only at hnil
      rw [hnil] at hperm
      have hF1 : F.1 = [] := hperm.symm.eq_nil
      exact ⟨h2 hF1, by rw [h1, hF1]; rfl⟩
    · intro hne
      simp only at hne ⊢
      have hF1 : F.1 ≠ [] := by
        intro hF1
        apply hne
        rw [hF1]
        rfl
      exact h3 hF1
    · exact List.sorted_insertionSort posLe F.1

/-- C5: scanning is case-insensitive and punctuation-insensitive: the text
with all letters upper-cased scans identically, and surrounding the text
with non-word characters (punctuation or whitespace) scans identically,
provided the original text is not whitespace-only. -/
theorem claim_C5_case_punctuation_insensitive (env : ScanEnv)
    (ks : List ModerationKeyword) (t p q : List Char)
    (hp : ∀ c ∈ p, isWordChar c = false) (hq : ∀ c ∈ q, isWordChar c = false)
    (ht : trimWs t ≠ []) :
    scanText env ks (t.map toUpperJS) = scanText env ks t ∧
    scanText env ks (q ++ t ++ p) = scanText env ks t :=
  ⟨scanText_map_toUpperJS env ks t, scanText_surround_nonword env ks t p q hp hq ht⟩

/-! Characterisation of the literal (non-pattern) matcher: the
boundary-anchored regex hits exactly the whole-word / whole-phrase
occurrences. -/

theorem matchesAt_length_le (w t : List Char) (i : Nat) (hw : 0 < w.length)
    (hm : matchesAt w t i = true) : i + w.length ≤ t.length := by
  unfold matchesAt at hm
  rw [beq_iff_eq] at hm
  have hlen := congrArg List.length hm
  rw [List.length_map, List.length_map, List.length_take, List.length_drop] at hlen
  omega

theorem matchesAt_getD (w t : List Char) (i j : Nat) (hm : matchesAt w t i = true)
    (hj : j < w.length) :
    toLowerJS (t.getD (i + j) ' ') = toLowerJS (w.getD j ' ') := by
  have hle := matchesAt_length_le w t i (by omega) hm
  unfold matchesAt at hm
  rw [beq_iff_eq] at hm
  have hq := congrArg (fun l => l[j]?) hm
  simp only [List.getElem?_map, List.getElem?_take, if_pos hj, List.getElem?_drop] at hq
  have hit : i + j < t.length := by omega
  rw [List.getElem?_eq_getElem hit, List.getElem?_eq_getElem hj] at hq
  simp only [Option.map_some', Option.some.injEq] at hq
  rw [List.getD_eq_getElem?_getD, List.getD_eq_getElem?_getD,
    List.getElem?_eq_getElem hit, List.getElem?_eq_getElem hj]
  simpa using hq

theorem isWordAt_of_match_left (w t : List Char) (i : Nat) (hw : 0 < w.length)
    (hf : isWordChar (w.getD 0 ' ') = true) (hm : matchesAt w t i = true) :
    isWordAt t i = true := by
  have hle := matchesAt_length_le w t i hw hm
  have hi : i < t.length := by omega
  have hc := matchesAt_getD w t i 0 hm hw
  rw [Nat.add_zero] at hc
  unfold isWordAt
  rw [decide_eq_true hi, Bool.true_and,
    ← isWordChar_toLowerJS (t.getD i ' '), hc, isWordChar_toLowerJS]
  exact hf

theorem isWordAt_of_match_right (w t : List Char) (i : Nat) (hw : 0 < w.length)
    (hl : isWordChar (w.getD (w.length - 1) ' ') = true) (hm : matchesAt w t i = true) :
    isWordAt t (i + w.length - 1) = true := by
  have hle := matchesAt_length_le w t i hw hm
  have hi : i + w.length - 1 < t.length := by omega
  have hc := matchesAt_getD w t i (w.length - 1) hm (by omega)
  have hidx : i + (w.length - 1) = i + w.length - 1 := by omega
  rw [hidx] at hc
  unfold isWordAt
  rw [decide_eq_true hi, Bool.true_and,
    ← isWordChar_toLowerJS (t.getD (i + w.length - 1) ' '), hc, isWordChar_toLowerJS]
  exact hl

/-- Modelled from the claim wording: the term `w` occurs (case-folded) in
`t` at position `i` as a whole word or whole phrase, with a word boundary at
both ends of the whole occurrence. -/
def wholePhraseAt (w t : List Char) (i : Nat) : Prop :=
  matchesAt w t i = true ∧
  (i = 0 ∨ isWordChar (t.getD (i - 1) ' ') = false) ∧
  (i + w.length = t.length ∨ isWordChar (t.getD (i + w.length) ' ') = false)

theorem litHitAt_iff_wholePhraseAt (w t : List Char) (i : Nat) (hw : 0 < w.length)
    (hf : isWordChar (w.getD 0 ' ') = true)
    (hl : isWordChar (w.getD (w.length - 1) ' ') = true) :
    litHitAt w t i = true ↔ wholePhraseAt w t i := by
  constructor
  · intro h
    unfold litHitAt at h
    rw [Bool.and_eq_true, Bool.and_eq_true] at h
    obtain ⟨⟨hb1, hm⟩, hb2⟩ := h
    have hle := matchesAt_length_le w t i hw hm
    refine ⟨hm, ?_, ?_⟩
    · have hwat : isWordAt t i = true := isWordAt_of_match_left w t i hw hf hm
      unfold boundaryAt at hb1
      rw [hwat] at hb1
      have hprev : prevIsWord t i = false := by
        cases hpv : prevIsWord t i
        · rfl
        · rw [hpv] at hb1
          simp at hb1
      by_cases hi0 : i = 0
      · exact Or.inl hi0
      · right
        unfold prevIsWord at hprev
        rw [decide_eq_true hi0, Bool.true_and] at hprev
        unfold isWordAt at hprev
        have hi1 : i - 1 < t.length := by omega
        rw [decide_eq_true hi1, Bool.true_and] at hprev
        exact hprev
    · have hwat : isWordAt t (i + w.length - 1) = true :=
        isWordAt_of_match_right w t i hw hl hm
      have hprev : prevIsWord t (i + w.length) = true := by
        unfold prevIsWord
        rw [decide_eq_true (by omega : i + w.length ≠ 0), Bool.true_and]
        exact hwat
      unfold boundaryAt at hb2
      rw [hprev] at hb2
      have hnext : isWordAt t (i + w.length) = false := by
        cases hnx : isWordAt t (i + w.length)
        · rfl
        · rw [hnx] at hb2
          simp at hb2
      by_cases hend : i + w.length = t.length
      · exact Or.inl hend
      · right
        unfold isWordAt at hnext
        have hlt : i + w.length < t.length := by omega
        rw [decide_eq_true hlt, Bool.true_and] at hnext
        exact hnext
  · rintro ⟨hm, hleft, hright⟩
    have hle := matchesAt_length_le w t i hw hm
    have hwat : isWordAt t i = true := isWordAt_of_match_left w t i hw hf hm
    have hwat2 : isWordAt t (i + w.length - 1) = true :=
      isWordAt_of_match_right w t i hw hl hm
    have hprev : prevIsWord t i = false := by
      unfold prevIsWord
      rcases hleft with hi0 | hnw
      · rw [decide_eq_false (by omega : ¬ i ≠ 0)]
        rfl
      · unfold isWordAt
        rw [hnw]
        simp
    have h2a : prevIsWord t (i + w.length) = true := by
      unfold prevIsWord
      rw [decide_eq_true (by omega : i + w.length ≠ 0), Bool.true_and]
      exact hwat2
    have h2b : isWordAt t (i + w.length) = false := by
      unfold isWordAt
      rcases hright with heq | hnw
      · rw [decide_eq_false (by omega : ¬ i + w.length < t.length)]
        rfl
      · rw [hnw]
        simp
    unfold litHitAt boundaryAt
    rw [hprev, hwat, h2a, h2b, hm]
    rfl

theorem litFind_some_wholePhrase (w t : List Char) (p : Nat) (hw : 0 < w.length)
    (hf : isWordChar (w.getD 0 ' ') = true)
    (hl : isWordChar (w.getD (w.length - 1) ' ') = true)
    (h : litFind w t = some p) : wholePhraseAt w t p :=
  (litHitAt_iff_wholePhraseAt w t p hw hf hl).mp (List.find?_some h)

theorem litFind_isSome_of_wholePhrase (w t : List Char) (i : Nat) (hw : 0 < w.length)
    (hf : isWordChar (w.getD 0 ' ') = true)
    (hl : isWordChar (w.getD (w.length - 1) ' ') = true)
    (h : wholePhraseAt w t i) : ∃ p, litFind w t = some p := by
  cases hfind : litFind w t with
  | some p => exact ⟨p, rfl⟩
  | none =>
    exfalso
    unfold litFind at hfind
    rw [List.find?_eq_none] at hfind
    have hi : i ∈ List.range (t.length + 1) :=
      List.mem_range.mpr (by have := matchesAt_length_le w t i hw h.1; omega)
    exact hfind i hi ((litHitAt_iff_wholePhraseAt w t i hw hf hl).mpr h)

/-- C6: for a literal (non-pattern) rule whose term starts and ends with a
word character, the term matches the text exactly at whole-word /
whole-phrase occurrences: any reported match position is such an
occurrence, any such occurrence makes the rule match, and the non-regex
branch of the scan loop is exactly this literal matcher. -/
theorem claim_C6_literal_whole_word (w t : List Char) (hw : 0 < w.length)
    (hf : isWordChar (w.getD 0 ' ') = true)
    (hl : isWordChar (w.getD (w.length - 1) ' ') = true) :
    (∀ p, litFind w t = some p → wholePhraseAt w t p) ∧
    ((∃ i, wholePhraseAt w t i) → ∃ p, litFind w t = some p) ∧
    (∀ env : ScanEnv, ∀ k : ModerationKeyword, k.isRegex = false →
      scanKeyword env k t = Except.ok (litFind k.word t)) :=
  ⟨fun p h => litFind_some_wholePhrase w t p hw hf hl h,
    fun ⟨i, h⟩ => litFind_isSome_of_wholePhrase w t i hw hf hl h,
    fun env k hk => by simp [scanKeyword, hk]⟩

/-! Registry model: the keyword cache of `KeywordScannerService`. -/

/-- Scanner cache state (the `cache` and `lastCacheUpdate` fields of
`KeywordScannerService`); timestamps in milliseconds. -/
structure ScannerCache where
  cache : List ModerationKeyword
  lastCacheUpdate : Option Nat
deriving DecidableEq, Repr

/-- The `cacheTTL` constant: 5 minutes in milliseconds. -/
def cacheTTL : Nat := 5 * 60 * 1000

/-- Environment of one `loadKeywords` call: the current time and the
outcome of the storage query for enabled keywords. -/
structure RegistryEnv where
  now : Nat
  dbFind : Except Unit (List ModerationKeyword)

/-- The cache-validity test at the top of `loadKeywords`: not forced, a
non-empty cache, a recorded update time, and age below the TTL. -/
def cacheValid (env : RegistryEnv) (force : Bool) (st : ScannerCache) : Bool :=
  !force && decide (0 < st.cache.length) &&
    (match st.lastCacheUpdate with
     | Option.some last => decide (env.now - last < cacheTTL)
     | Option.none => false)

/-- Embedding of `KeywordScannerService.loadKeywords`.  Returns the keyword
list handed to the caller, the new cache state, and whether the database
was queried.  On a storage failure the stale cache is returned unchanged. -/
def loadKeywords (env : RegistryEnv) (force : Bool) (st : ScannerCache) :
    List ModerationKeyword × ScannerCache × Bool :=
  if cacheValid env force st then (st.cache, st, false)
  else
    match env.dbFind with
    | .ok kws => (kws, ⟨kws, Option.some env.now⟩, true)
    | .error _ => (st.cache, st, true)

end Scanner

namespace Pipeline

open Scanner

/-- Report target types (enum `ReportTargetType`). -/
inductive ReportTargetType where
  | message
  | user
  | channel
  | resource
deriving DecidableEq, Repr

/-- Report lifecycle states (enum `ReportStatus`; the source value OPEN is
called `opened` because `open` is reserved in Lean). -/
inductive ReportStatus where
  | opened
  | underReview
  | resolved
deriving DecidableEq, Repr

/-- Moderation resolution actions (enum `ModerationAction`), with an extra
constructor standing for any unrecognised action value (the `default`
branch of the switch). -/
inductive ModerationAction where
  | dismiss
  | remove
  | banUser
  | suspendChannel
  | invalid
deriving DecidableEq, Repr

/-- A moderation queue item (model of `IModerationQueue`; the payload
snapshot keeps the fields the pipeline writes). -/
structure QueueItem where
  qid : Nat
  messageId : String
  userId : String
  channelId : String
  text : List Char
  reasonTags : List (List Char)
  severity : Nat
  processed : Bool
  processedAt : Option Nat
deriving DecidableEq, Repr

/-- A report (model of the `Report` document; the reason text of automatic
reports is abstracted to the list of matched words it interpolates). -/
structure Report where
  rid : Nat
  targetType : ReportTargetType
  targetId : String
  reasonWords : List (List Char)
  status : ReportStatus
  moderatorId : Option String
  moderatorComment : Option String
  resolvedAt : Option Nat
deriving DecidableEq, Repr

/-- An audit-log entry (model of the `AuditLog` document; the `meta` blob is
abstracted away, the claims only read `action`, actor, `target` and
`timestamp`). -/
structure AuditEntry where
  action : String
  actorUserId : Option String
  target : String
  timestamp : Nat
deriving DecidableEq, Repr

/-- A chat room record (the fields of `ChatRoom` the pipeline touches). -/
structure ChatRoomRec where
  channelId : String
  flaggedCount : Nat
  lastMessageAt : Option Nat
deriving DecidableEq, Repr

/-- A user record (the fields of `User` the resolution workflow touches). -/
structure UserRec where
  uid : String
  bannedUntil : Option Nat
deriving DecidableEq, Repr

/-- Observable side effects of a pipeline run, recorded in program order:
persistent writes, provider calls and the classifier invocation. -/
inductive Effect where
  | processedInsert (messageId : String)
  | scanCall (text : List Char)
  | queueCreate (qid : Nat) (severity : Nat)
  | reportCreate (rid : Nat)
  | deleteMessageCall (messageId : String) (hard : Bool) (ok : Bool)
  | flagMessageCall (messageId : String) (ok : Bool)
  | notifyModeratorsCall (ok : Bool)
  | sendCrisisResourcesCall (userId : String) (ok : Bool)
  | banUserCall (userId : String) (ok : Bool)
  | incFlaggedCount (channelId : String)
  | auditCreate (action : String)
  | roomActivityUpdate (channelId : String)
  | metricsUpsert (day : String)
deriving DecidableEq, Repr

/-- The durable stores and the effect/error logs of a run. -/
structure WorldState where
  processed : List String
  queue : List QueueItem
  reports : List Report
  audits : List AuditEntry
  rooms : List ChatRoomRec
  users : List UserRec
  metrics : List (String × Nat)
  nextId : Nat
  trace : List Effect
  errorLogs : List String
deriving DecidableEq, Repr

def initialState : WorldState := ⟨[], [], [], [], [], [], [], 0, [], []⟩

/-- Environment of one webhook invocation: injected storage faults, provider
call outcomes, the classifier behaviour and the clock. -/
structure Env where
  lookupFault : Bool
  insertFault : Option Nat
  scan : List Char → ScanResult
  deleteFails : Bool
  flagFails : Bool
  notifyFails : Bool
  crisisFails : Bool
  now : Nat
  day : String

def logError (msg : String) (s : WorldState) : WorldState :=
  { s with errorLogs := s.errorLogs ++ [msg] }

def emit (e : Effect) (s : WorldState) : WorldState :=
  { s with trace := s.trace ++ [e] }

/-- A provider call: the effect is recorded with its outcome; a failure is
caught at the call site and only logged. -/
def providerCall (e : Effect) (fails : Bool) (failMsg : String) (s : WorldState) :
    WorldState :=
  if fails then logError failMsg (emit e s) else emit e s

/-- Embedding of `IdempotencyService.isProcessed`: existence check against
the processed-ids store; a storage error is caught, logged, and reported as
`false` (fail open). -/
def isProcessed (env : Env) (messageId : String) (s : WorldState) :
    Bool × WorldState :=
  if env.lookupFault then
    (false, logError "Error checking message processed status" s)
  else (s.processed.contains messageId, s)

/-- Outcome of the `ProcessedMessage.create` insert: a duplicate of the
unique `messageId` index fails with Mongo error code 11000; the environment
may inject any other storage error code. -/
def createProcessedRecord (env : Env) (messageId : String) (s : WorldState) :
    Except Nat WorldState :=
  if s.processed.contains messageId then Except.error 11000
  else
    match env.insertFault with
    | Option.some code => Except.error code
    | Option.none => Except.ok (emit (.processedInsert messageId)
        { s with processed := messageId :: s.processed })

/-- Embedding of `IdempotencyService.markProcessed`: the insert error is
caught; a duplicate-key error (11000) is ignored silently, any other error
is logged; nothing is rethrown. -/
def markProcessed (env : Env) (messageId : String) (s : WorldState) : WorldState :=
  match createProcessedRecord env messageId s with
  | .ok s1 => s1
  | .error code =>
    if code ≠ 11000 then logError "Error marking message as processed" s else s

/-- Append one audit record (an `AuditLog.create`). -/
def addAudit (action : String) (actor : Option String) (target : String)
    (ts : Nat) (s : WorldState) : WorldState :=
  emit (.auditCreate action)
    { s with audits := s.audits ++ [⟨action, actor, target, ts⟩] }

/-- The `ChatRoom.updateOne` increment of `flaggedCount` (no upsert: a
missing room is left unchanged). -/
def incFlagged (cid : String) (s : WorldState) : WorldState :=
  emit (.incFlaggedCount cid)
    { s with rooms := s.rooms.map (fun r =>
        if r.channelId = cid then { r with flaggedCount := r.flaggedCount + 1 } else r) }

/-- Embedding of `handleHighSeverity`: queue item of severity 3, automatic
under-review report, provider hard delete (caught), moderator notification
(caught), crisis resources (caught), flagged-counter increment, audit
record, in that order. -/
def handleHighSeverity (env : Env) (messageId userId channelId : String)
    (scanResult : ScanResult) (text : List Char) (s : WorldState) : WorldState :=
  let item : QueueItem :=
    ⟨s.nextId, messageId, userId, channelId, text,
      scanResult.matchList.map (fun m => m.word), 3, false, Option.none⟩
  let s1 := emit (.queueCreate item.qid 3)
    { s with queue := s.queue ++ [item], nextId := s.nextId + 1 }
  let rep : Report :=
    ⟨s1.nextId, ReportTargetType.message, messageId,
      scanResult.matchList.map (fun m => m.word), ReportStatus.underReview,
      Option.none, Option.none, Option.none⟩
  let s2 := emit (.reportCreate rep.rid)
    { s1 with reports := s1.reports ++ [rep], nextId := s1.nextId + 1 }
  let s3 := providerCall (.deleteMessageCall messageId true (!env.deleteFails))
    env.deleteFails "Failed to delete message" s2
  let s4 := providerCall (.notifyModeratorsCall (!env.notifyFails))
    env.notifyFails "Failed to notify moderators" s3
  let s5 := providerCall (.sendCrisisResourcesCall userId (!env.crisisFails))
    env.crisisFails "Failed to send crisis resources" s4
  let s6 := incFlagged channelId s5
  addAudit "message_moderated_high" Option.none messageId env.now s6

/-- Embedding of `handleMediumSeverity`: queue item of severity 2, provider
soft flag (caught), flagged-counter increment, audit record. -/
def handleMediumSeverity (env : Env) (messageId userId channelId : String)
    (scanResult : ScanResult) (text : List Char) (s : WorldState) : WorldState :=
  let item : QueueItem :=
    ⟨s.nextId, messageId, userId, channelId, text,
      scanResult.matchList.map (fun m => m.word), 2, false, Option.none⟩
  let s1 := emit (.queueCreate item.qid 2)
    { s with queue := s.queue ++ [item], nextId := s.nextId + 1 }
  let s2 := providerCall (.flagMessageCall messageId (!env.flagFails))
    env.flagFails "Failed to flag message" s1
  let s3 := incFlagged channelId s2
  addAudit "message_flagged_medium" Option.none messageId env.now s3

/-- Embedding of `handleLowSeverity`: only a queue item of severity 1. -/
def handleLowSeverity (env : Env) (messageId userId channelId : String)
    (scanResult : ScanResult) (text : List Char) (s : WorldState) : WorldState :=
  let item : QueueItem :=
    ⟨s.nextId, messageId, userId, channelId, text,
      scanResult.matchList.map (fun m => m.word), 1, false, Option.none⟩
  emit (.queueCreate item.qid 1)
    { s with queue := s.queue ++ [item], nextId := s.nextId + 1 }

/-- Embedding of `updateMetricsAndChatRoom`: room last-activity update and
the per-day message counter upsert. -/
def updateMetricsAndChatRoom (env : Env) (channelId : String) (s : WorldState) :
    WorldState :=
  let s1 := emit (.roomActivityUpdate channelId)
    { s with rooms := s.rooms.map (fun r =>
        if r.channelId = channelId then { r with lastMessageAt := Option.some env.now }
        else r) }
  emit (.metricsUpsert env.day)
    { s1 with metrics :=
        if s1.metrics.any (fun kv => kv.1 = env.day) then
          s1.metrics.map (fun kv => if kv.1 = env.day then (kv.1, kv.2 + 1) else kv)
        else s1.metrics ++ [(env.day, 1)] }

/-- The `message.new` payload fields the pipeline reads. -/
structure InboundMessage where
  id : String
  text : List Char
  userId : String
  cid : String

/-- The severity branch of `processMessageCreated`. -/
def dispatchSeverity (env : Env) (msg : InboundMessage) (scanResult : ScanResult)
    (s2 : WorldState) : WorldState :=
  if scanResult.severity = KeywordSeverity.high then
    handleHighSeverity env msg.id msg.userId msg.cid scanResult msg.text s2
  else if scanResult.severity = KeywordSeverity.medium then
    handleMediumSeverity env msg.id msg.userId msg.cid scanResult msg.text s2
  else if scanResult.severity = KeywordSeverity.low then
    handleLowSeverity env msg.id msg.userId msg.cid scanResult msg.text s2
  else s2

/-- Embedding of `processMessageCreated`: idempotency check, early return
for an already-processed id, mark-processed, scan, severity dispatch,
metrics update. -/
def processMessageCreated (env : Env) (msg : InboundMessage) (s : WorldState) :
    WorldState :=
  let chk := isProcessed env msg.id s
  if chk.1 then chk.2
  else
    let s1 := markProcessed env msg.id chk.2
    let scanResult := env.scan msg.text
    let s2 := emit (.scanCall msg.text) s1
    updateMetricsAndChatRoom env msg.cid (dispatchSeverity env msg scanResult s2)

/-- An inbound webhook request, after the transport layer: signature
presence and validity, event type, optional message payload. -/
structure WebhookRequest where
  hasSignature : Bool
  signatureValid : Bool
  eventType : String
  message : Option InboundMessage

/-- Embedding of `handleStreamWebhook`: 401 for a missing or invalid
signature (no processing), otherwise `message.new` events are processed and
the request is acknowledged with HTTP 200 and success = true. -/
def handleStreamWebhook (env : Env) (req : WebhookRequest) (s : WorldState) :
    (Nat × Bool) × WorldState :=
  if !req.hasSignature then ((401, false), s)
  else if !req.signatureValid then ((401, false), s)
  else
    match req.message with
    | Option.some msg =>
      if req.eventType = "message.new" then
        ((200, true), processMessageCreated env msg s)
      else ((200, true), s)
    | Option.none => ((200, true), s)

/-! The moderation resolution workflow. -/

/-- The `actionDetails` object assembled by `resolveModerationAction`. -/
structure ActionDetails where
  messageDeleted : Option Bool
  streamBanned : Option Bool
  bannedUntil : Option Nat
  channelSuspended : Option Bool
deriving DecidableEq, Repr

def detailsNone : ActionDetails := ⟨Option.none, Option.none, Option.none, Option.none⟩

/-- Errors thrown by the resolution workflow (`AppError` codes). -/
inductive ResolveErr where
  | reportNotFound
  | alreadyResolved
  | invalidAction
  | queueItemNotFound
  | alreadyProcessed
deriving DecidableEq, Repr

/-- Ten years in milliseconds: the "permanent" ban horizon computed by
`setFullYear(getFullYear() + 10)` (calendar drift ignored). -/
def tenYearsMs : Nat := 10 * 365 * 24 * 60 * 60 * 1000

/-- Environment of one resolution call: the clock and the provider call
outcomes. -/
structure ResolveEnv where
  now : Nat
  deleteFails : Bool
  banFails : Bool

def targetTypeStr : ReportTargetType → String
  | .message => "message"
  | .user => "user"
  | .channel => "channel"
  | .resource => "resource"

/-- The mutation applied to the report document before `report.save()`:
status RESOLVED, moderator, comment and resolution timestamp. -/
def resolvedReport (env : ResolveEnv) (moderatorId : String)
    (comment : Option String) (r : Report) : Report :=
  { r with status := ReportStatus.resolved,
           moderatorId := Option.some moderatorId,
           moderatorComment := comment,
           resolvedAt := Option.some env.now }

/-- Tail of `resolveModerationAction` common to all successful branches:
flip the report to resolved with the moderator, comment and timestamp, and
append the one audit record. -/
def resolveFinish (env : ResolveEnv) (moderatorId : String) (r : Report)
    (comment : Option String) (details : ActionDetails) (s : WorldState) :
    Except ResolveErr ActionDetails × WorldState :=
  let s1 := { s with reports := s.reports.map (fun x =>
      if x.rid = r.rid then resolvedReport env moderatorId comment r else x) }
  let s2 := addAudit "moderation_resolved" (Option.some moderatorId)
    (targetTypeStr r.targetType ++ ":" ++ r.targetId) env.now s1
  (Except.ok details, s2)

/-- Embedding of `resolveModerationAction`.  On an error the state is
returned unchanged (the source throws before any write).  For a BAN_USER
action on a message-type report the user lookup uses the report's targetId
directly (the source does not resolve the message's author). -/
def resolveModerationAction (env : ResolveEnv) (moderatorId : String)
    (reportId : Nat) (action : ModerationAction) (comment : Option String)
    (banDurationHours : Option Nat) (s : WorldState) :
    Except ResolveErr ActionDetails × WorldState :=
  match s.reports.find? (fun r => r.rid == reportId) with
  | Option.none => (Except.error ResolveErr.reportNotFound, s)
  | Option.some r =>
    if r.status = ReportStatus.resolved then
      (Except.error ResolveErr.alreadyResolved, s)
    else
      match action with
      | .invalid => (Except.error ResolveErr.invalidAction, s)
      | .dismiss => resolveFinish env moderatorId r comment detailsNone s
      | .remove =>
        if r.targetType = ReportTargetType.message then
          let s1 := providerCall (.deleteMessageCall r.targetId true (!env.deleteFails))
            env.deleteFails "Failed to delete message" s
          resolveFinish env moderatorId r comment
            { detailsNone with messageDeleted := Option.some (!env.deleteFails) } s1
        else resolveFinish env moderatorId r comment detailsNone s
      | .banUser =>
        if r.targetType = ReportTargetType.message ∨
            r.targetType = ReportTargetType.user then
          let targetUserId := r.targetId
          match s.users.find? (fun u => u.uid == targetUserId) with
          | Option.some _ =>
            let bannedUntil :=
              match banDurationHours with
              | Option.some h =>
                if h ≠ 0 then env.now + h * 3600000 else env.now + tenYearsMs
              | Option.none => env.now + tenYearsMs
            let s1 := { s with users := s.users.map (fun u =>
                if u.uid = targetUserId then { u with bannedUntil := Option.some bannedUntil }
                else u) }
            let s2 := providerCall (.banUserCall targetUserId (!env.banFails))
              env.banFails "Failed to ban user in Stream" s1
            resolveFinish env moderatorId r comment
              { detailsNone with streamBanned := Option.some (!env.banFails),
                                 bannedUntil := Option.some bannedUntil } s2
          | Option.none => resolveFinish env moderatorId r comment detailsNone s
        else resolveFinish env moderatorId r comment detailsNone s
      | .suspendChannel =>
        if r.targetType = ReportTargetType.channel then
          match s.rooms.find? (fun rm => rm.channelId == r.targetId) with
          | Option.some _ =>
            let s1 := { s with rooms := s.rooms.map (fun rm =>
                if rm.channelId = r.targetId then
                  { rm with flaggedCount := rm.flaggedCount + 100 }
                else rm) }
            resolveFinish env moderatorId r comment
              { detailsNone with channelSuspended := Option.some true } s1
          | Option.none => resolveFinish env moderatorId r comment detailsNone s
        else resolveFinish env moderatorId r comment detailsNone s

/-- Embedding of `processQueueItem`: fails on a missing or already-processed
item, otherwise marks it processed with a timestamp and appends one audit
record. -/
def processQueueItem (env : ResolveEnv) (moderatorId : String) (qid : Nat)
    (s : WorldState) : Except ResolveErr Unit × WorldState :=
  match s.queue.find? (fun q => q.qid == qid) with
  | Option.none => (Except.error ResolveErr.queueItemNotFound, s)
  | Option.some q =>
    if q.processed then (Except.error ResolveErr.alreadyProcessed, s)
    else
      let q2 := { q with processed := true, processedAt := Option.some env.now }
      let s1 := { s with queue := s.queue.map (fun x => if x.qid = q.qid then q2 else x) }
      (Except.ok (), addAudit "queue_item_processed" (Option.some moderatorId)
        (toString qid) env.now s1)

/-! Projection lemmas for the state helpers. -/

@[simp] theorem emit_processed (e : Effect) (s : WorldState) : (emit e s).processed = s.processed := rfl

@[simp] theorem emit_queue (e : Effect) (s : WorldState) : (emit e s).queue = s.queue := rfl

@[simp] theorem emit_reports (e : Effect) (s : WorldState) : (emit e s).reports = s.reports := rfl

@[simp] theorem emit_audits (e : Effect) (s : WorldState) : (emit e s).audits = s.audits := rfl

@[simp] theorem emit_rooms (e : Effect) (s : WorldState) : (emit e s).rooms = s.rooms := rfl

@[simp] theorem emit_users (e : Effect) (s : WorldState) : (emit e s).users = s.users := rfl

@[simp] theorem emit_metrics (e : Effect) (s : WorldState) : (emit e s).metrics = s.metrics := rfl

@[simp] theorem emit_nextId (e : Effect) (s : WorldState) : (emit e s).nextId = s.nextId := rfl

@[simp] theorem emit_errorLogs (e : Effect) (s : WorldState) : (emit e s).errorLogs = s.errorLogs := rfl

@[simp] theorem emit_trace (e : Effect) (s : WorldState) : (emit e s).trace = s.trace ++ [e] := rfl

@[simp] theorem logError_processed (m : String) (s : WorldState) : (logError m s).processed = s.processed := rfl

@[simp] theorem logError_queue (m : String) (s : WorldState) : (logError m s).queue = s.queue := rfl

@[simp] theorem logError_reports (m : String) (s : WorldState) : (logError m s).reports = s.reports := rfl

@[simp] theorem logError_audits (m : String) (s : WorldState) : (logError m s).audits = s.audits := rfl

@[simp] theorem logError_rooms (m : String) (s : WorldState) : (logError m s).rooms = s.rooms := rfl

@[simp] theorem logError_users (m : String) (s : WorldState) : (logError m s).users = s.users := rfl

@[simp] theorem logError_metrics (m : String) (s : WorldState) : (logError m s).metrics = s.metrics := rfl

@[simp] theorem logError_nextId (m : String) (s : WorldState) : (logError m s).nextId = s.nextId := rfl

@[simp] theorem logError_trace (m : String) (s : WorldState) : (logError m s).trace = s.trace := rfl

@[simp] theorem logError_errorLogs (m : String) (s : WorldState) : (logError m s).errorLogs = s.errorLogs ++ [m] := rfl

@[simp] theorem providerCall_processed (e : Effect) (b : Bool) (m : String) (s : WorldState) :
    (providerCall e b m s).processed = s.processed := by cases b <;> simp [providerCall]

@[simp] theorem providerCall_queue (e : Effect) (b : Bool) (m : String) (s : WorldState) :
    (providerCall e b m s).queue = s.queue := by cases b <;> simp [providerCall]

@[simp] theorem providerCall_reports (e : Effect) (b : Bool) (m : String) (s : WorldState) :
    (providerCall e b m s).reports = s.reports := by cases b <;> simp [providerCall]

@[simp] theorem providerCall_audits (e : Effect) (b : Bool) (m : String) (s : WorldState) :
    (providerCall e b m s).audits = s.audits := by cases b <;> simp [providerCall]

@[simp] theorem providerCall_rooms (e : Effect) (b : Bool) (m : String) (s : WorldState) :
    (providerCall e b m s).rooms = s.rooms := by cases b <;> simp [providerCall]

@[simp] theorem providerCall_users (e : Effect) (b : Bool) (m : String) (s : WorldState) :
    (providerCall e b m s).users = s.users := by cases b <;> simp [providerCall]

@[simp] theorem providerCall_metrics (e : Effect) (b : Bool) (m : String) (s : WorldState) :
    (providerCall e b m s).metrics = s.metrics := by cases b <;> simp [providerCall]

@[simp] theorem providerCall_nextId (e : Effect) (b : Bool) (m : String) (s : WorldState) :
    (providerCall e b m s).nextId = s.nextId := by cases b <;> simp [providerCall]

@[simp] theorem providerCall_trace (e : Effect) (b : Bool) (m : String) (s : WorldState) :
    (providerCall e b m s).trace = s.trace ++ [e] := by cases b <;> simp [providerCall]

@[simp] theorem providerCall_errorLogs (e : Effect) (b : Bool) (m : String) (s : WorldState) :
    (providerCall e b m s).errorLogs =
      if b then s.errorLogs ++ [m] else s.errorLogs := by cases b <;> simp [providerCall]

@[simp] theorem addAudit_processed (a : String) (u : Option String) (tg : String) (ts : Nat) (s : WorldState) :
    (addAudit a u tg ts s).processed = s.processed := rfl

@[simp] theorem addAudit_queue (a : String) (u : Option String) (tg : String) (ts : Nat) (s : WorldState) :
    (addAudit a u tg ts s).queue = s.queue := rfl

@[simp] theorem addAudit_reports (a : String) (u : Option String) (tg : String) (ts : Nat) (s : WorldState) :
    (addAudit a u tg ts s).reports = s.reports := rfl

@[simp] theorem addAudit_audits (a : String) (u : Option String) (tg : String) (ts : Nat) (s : WorldState) :
    (addAudit a u tg ts s).audits = s.audits ++ [⟨a, u, tg, ts⟩] := rfl

@[simp] theorem addAudit_rooms (a : String) (u : Option String) (tg : String) (ts : Nat) (s : WorldState) :
    (addAudit a u tg ts s).rooms = s.rooms := rfl

@[simp] theorem addAudit_users (a : String) (u : Option String) (tg : String) (ts : Nat) (s : WorldState) :
    (addAudit a u tg ts s).users = s.users := rfl

@[simp] theorem addAudit_metrics (a : String) (u : Option String) (tg : String) (ts : Nat) (s : WorldState) :
    (addAudit a u tg ts s).metrics = s.metrics := rfl

@[simp] theorem addAudit_nextId (a : String) (u : Option String) (tg : String) (ts : Nat) (s : WorldState) :
    (addAudit a u tg ts s).nextId = s.nextId := rfl

@[simp] theorem addAudit_trace (a : String) (u : Option String) (tg : String) (ts : Nat) (s : WorldState) :
    (addAudit a u tg ts s).trace = s.trace ++ [Effect.auditCreate a] := rfl

@[simp] theorem addAudit_errorLogs (a : String) (u : Option String) (tg : String) (ts : Nat) (s : WorldState) :
    (addAudit a u tg ts s).errorLogs = s.errorLogs := rfl

@[simp] theorem incFlagged_processed (cid : String) (s : WorldState) : (incFlagged cid s).processed = s.processed := rfl

@[simp] theorem incFlagged_queue (cid : String) (s : WorldState) : (incFlagged cid s).queue = s.queue := rfl

@[simp] theorem incFlagged_reports (cid : String) (s : WorldState) : (incFlagged cid s).reports = s.reports := rfl

@[simp] theorem incFlagged_audits (cid : String) (s : WorldState) : (incFlagged cid s).audits = s.audits := rfl

@[simp] theorem incFlagged_rooms (cid : String) (s : WorldState) :
    (incFlagged cid s).rooms = s.rooms.map (fun r =>
      if r.channelId = cid then { r with flaggedCount := r.flaggedCount + 1 } else r) := rfl

@[simp] theorem incFlagged_users (cid : String) (s : WorldState) : (incFlagged cid s).users = s.users := rfl

@[simp] theorem incFlagged_metrics (cid : String) (s : WorldState) : (incFlagged cid s).metrics = s.metrics := rfl

@[simp] theorem incFlagged_nextId (cid : String) (s : WorldState) : (incFlagged cid s).nextId = s.nextId := rfl

@[simp] theorem incFlagged_trace (cid : String) (s : WorldState) :
    (incFlagged cid s).trace = s.trace ++ [Effect.incFlaggedCount cid] := rfl

@[simp] theorem incFlagged_errorLogs (cid : String) (s : WorldState) : (incFlagged cid s).errorLogs = s.errorLogs := rfl

/-- C7: the idempotency guard fails open on lookup errors — `isProcessed`
returns false whenever the storage lookup fails — and `markProcessed`
treats a duplicate-key conflict for an already-recorded id as success: it
returns normally with the state unchanged and logs no error. -/
theorem claim_C7_idempotency_error_paths (env : Env) (id : String) (s : WorldState) :
    (env.lookupFault = true → (isProcessed env id s).1 = false) ∧
    (s.processed.contains id = true → markProcessed env id s = s) := by
  constructor
  · intro h
    simp [isProcessed, h]
  · intro h
    have h2 : id ∈ s.processed := by simpa using h
    simp [markProcessed, createProcessedRecord, h2]

/-- C9: on a HIGH verdict the severity-3 queue item and the automated
under-review report are written before the provider delete is attempted
(they precede the delete call in the effect trace), and the delete outcome
has no influence on the persisted writes: for every environment — in
particular when the delete fails — the queue item, the report, the
flagged-counter increment and the audit record are all present in the
final state. -/
theorem claim_C9_high_severity_persists (env : Env) (mid uid cid : String)
    (sr : ScanResult) (text : List Char) (s : WorldState) :
    (handleHighSeverity env mid uid cid sr text s).trace = s.trace ++
      [Effect.queueCreate s.nextId 3, Effect.reportCreate (s.nextId + 1),
       Effect.deleteMessageCall mid true (!env.deleteFails),
       Effect.notifyModeratorsCall (!env.notifyFails),
       Effect.sendCrisisResourcesCall uid (!env.crisisFails),
       Effect.incFlaggedCount cid, Effect.auditCreate "message_moderated_high"] ∧
    (handleHighSeverity env mid uid cid sr text s).queue = s.queue ++
      [⟨s.nextId, mid, uid, cid, text, sr.matchList.map (fun m => m.word), 3, false,
        Option.none⟩] ∧
    (handleHighSeverity env mid uid cid sr text s).reports = s.reports ++
      [⟨s.nextId + 1, ReportTargetType.message, mid,
        sr.matchList.map (fun m => m.word), ReportStatus.underReview,
        Option.none, Option.none, Option.none⟩] ∧
    (handleHighSeverity env mid uid cid sr text s).audits = s.audits ++
      [⟨"message_moderated_high", Option.none, mid, env.now⟩] ∧
    (handleHighSeverity env mid uid cid sr text s).rooms = s.rooms.map (fun r =>
      if r.channelId = cid then { r with flaggedCount := r.flaggedCount + 1 } else r) := by
  refine ⟨?_, ?_, ?_, ?_, ?_⟩ <;> simp [handleHighSeverity]

/-! Projection lemmas for the resolution tail. -/

@[simp] theorem resolvedReport_status (env : ResolveEnv) (mid : String)
    (comment : Option String) (r : Report) :
    (resolvedReport env mid comment r).status = ReportStatus.resolved := rfl

@[simp] theorem resolvedReport_resolvedAt (env : ResolveEnv) (mid : String)
    (comment : Option String) (r : Report) :
    (resolvedReport env mid comment r).resolvedAt = Option.some env.now := rfl

@[simp] theorem resolveFinish_fst (env : ResolveEnv) (mid : String) (r : Report)
    (comment : Option String) (d : ActionDetails) (s : WorldState) :
    (resolveFinish env mid r comment d s).1 = Except.ok d := rfl

@[simp] theorem resolveFinish_reports (env : ResolveEnv) (mid : String) (r : Report)
    (comment : Option String) (d : ActionDetails) (s : WorldState) :
    (resolveFinish env mid r comment d s).2.reports = s.reports.map (fun x =>
      if x.rid = r.rid then resolvedReport env mid comment r else x) := rfl

@[simp] theorem resolveFinish_audits (env : ResolveEnv) (mid : String) (r : Report)
    (comment : Option String) (d : ActionDetails) (s : WorldState) :
    (resolveFinish env mid r comment d s).2.audits = s.audits ++
      [⟨"moderation_resolved", Option.some mid,
        targetTypeStr r.targetType ++ ":" ++ r.targetId, env.now⟩] := rfl

@[simp] theorem resolveFinish_users (env : ResolveEnv) (mid : String) (r : Report)
    (comment : Option String) (d : ActionDetails) (s : WorldState) :
    (resolveFinish env mid r comment d s).2.users = s.users := rfl

@[simp] theorem resolveFinish_queue (env : ResolveEnv) (mid : String) (r : Report)
    (comment : Option String) (d : ActionDetails) (s : WorldState) :
    (resolveFinish env mid r comment d s).2.queue = s.queue := rfl

@[simp] theorem resolveFinish_trace (env : ResolveEnv) (mid : String) (r : Report)
    (comment : Option String) (d : ActionDetails) (s : WorldState) :
    (resolveFinish env mid r comment d s).2.trace =
      s.trace ++ [Effect.auditCreate "moderation_resolved"] := rfl

/-- C3: report resolution and queue-item processing are exactly-once.
Resolving a report whose status is already RESOLVED, or processing a queue
item whose processed flag is already true, fails with the corresponding
"already" error and leaves the state — in particular the first call's
resolution timestamp and the audit log — completely unchanged; on a first
call the report status / processed flag flips, the timestamp is written and
exactly one audit record is appended. -/
theorem claim_C3_resolution_exactly_once (env : ResolveEnv) (moderatorId : String)
    (reportId : Nat) (action : ModerationAction) (comment : Option String)
    (bdh : Option Nat) (qid : Nat) (s : WorldState) (r : Report) (q : QueueItem)
    (hr : s.reports.find? (fun x => x.rid == reportId) = Option.some r)
    (hq : s.queue.find? (fun x => x.qid == qid) = Option.some q) :
    (r.status = ReportStatus.resolved →
      resolveModerationAction env moderatorId reportId action comment bdh s =
        (Except.error ResolveErr.alreadyResolved, s)) ∧
    (r.status ≠ ReportStatus.resolved → action ≠ ModerationAction.invalid →
      (∃ d, (resolveModerationAction env moderatorId reportId action comment bdh s).1 =
        Except.ok d) ∧
      (resolveModerationAction env moderatorId reportId action comment bdh s).2.reports =
        s.reports.map (fun x => if x.rid = r.rid then
          resolvedReport env moderatorId comment r else x) ∧
      (resolvedReport env moderatorId comment r).status = ReportStatus.resolved ∧
      (resolvedReport env moderatorId comment r).resolvedAt = Option.some env.now ∧
      (resolveModerationAction env moderatorId reportId action comment bdh s).2.audits =
        s.audits ++ [⟨"moderation_resolved", Option.some moderatorId,
          targetTypeStr r.targetType ++ ":" ++ r.targetId, env.now⟩]) ∧
    (q.processed = true →
      processQueueItem env moderatorId qid s =
        (Except.error ResolveErr.alreadyProcessed, s)) ∧
    (q.processed = false →
      (processQueueItem env moderatorId qid s).1 = Except.ok () ∧
      (processQueueItem env moderatorId qid s).2.queue =
        s.queue.map (fun x => if x.qid = q.qid then
          { q with processed := true, processedAt := Option.some env.now } else x) ∧
      (processQueueItem env moderatorId qid s).2.audits =
        s.audits ++ [⟨"queue_item_processed", Option.some moderatorId,
          toString qid, env.now⟩]) := by
  refine ⟨?_, ?_, ?_, ?_⟩
  · intro hstat
    simp [resolveModerationAction, hr, hstat]
  · intro hstat hact
    cases action with
    | invalid => exact absurd rfl hact
    | dismiss =>
      simp [resolveModerationAction, hr, hstat]
    | remove =>
      by_cases ht : r.targetType = ReportTargetType.message <;>
        simp [resolveModerationAction, hr, hstat, ht]
    | banUser =>
      by_cases ht : r.targetType = ReportTargetType.message ∨
          r.targetType = ReportTargetType.user
      · cases hu : s.users.find? (fun u => u.uid == r.targetId) with
        | none => simp [resolveModerationAction, hr, hstat, ht, hu]
        | some u => simp [resolveModerationAction, hr, hstat, ht, hu]
      · simp [resolveModerationAction, hr, hstat, ht]
    | suspendChannel =>
      by_cases ht : r.targetType = ReportTargetType.channel
      · cases hm : s.rooms.find? (fun rm => rm.channelId == r.targetId) with
        | none => simp [resolveModerationAction, hr, hstat, ht, hm]
        | some rm => simp [resolveModerationAction, hr, hstat, ht, hm]
      · simp [resolveModerationAction, hr, hstat, ht]
  · intro hp
    simp [processQueueItem, hq, hp]
  · intro hp
    refine ⟨?_, ?_, ?_⟩ <;> simp [processQueueItem, hq, hp]

/-- C10: a BAN_USER resolution on a message-type report looks the user up by
the report's targetId (the message id) directly; when no user exists with
that id, no user record is modified and no provider ban call is made, yet
the report is still flipped to RESOLVED with a resolution timestamp and the
moderation-resolved audit record is written as on a successful
resolution. -/
theorem claim_C10_ban_message_target_no_user (env : ResolveEnv)
    (moderatorId : String) (reportId : Nat) (comment : Option String)
    (bdh : Option Nat) (s : WorldState) (r : Report)
    (hr : s.reports.find? (fun x => x.rid == reportId) = Option.some r)
    (hstat : r.status ≠ ReportStatus.resolved)
    (htype : r.targetType = ReportTargetType.message)
    (husr : s.users.find? (fun u => u.uid == r.targetId) = Option.none) :
    (resolveModerationAction env moderatorId reportId ModerationAction.banUser
        comment bdh s).1 = Except.ok detailsNone ∧
    (resolveModerationAction env moderatorId reportId ModerationAction.banUser
        comment bdh s).2.users = s.users ∧
    (resolveModerationAction env moderatorId reportId ModerationAction.banUser
        comment bdh s).2.trace = s.trace ++ [Effect.auditCreate "moderation_resolved"] ∧
    (resolveModerationAction env moderatorId reportId ModerationAction.banUser
        comment bdh s).2.reports = s.reports.map (fun x => if x.rid = r.rid then
      resolvedReport env moderatorId comment r else x) ∧
    (resolvedReport env moderatorId comment r).status = ReportStatus.resolved ∧
    (resolvedReport env moderatorId comment r).resolvedAt = Option.some env.now ∧
    (resolveModerationAction env moderatorId reportId ModerationAction.banUser
        comment bdh s).2.audits = s.audits ++
      [⟨"moderation_resolved", Option.some moderatorId,
        "message:" ++ r.targetId, env.now⟩] := by
  have ht : r.targetType = ReportTargetType.message ∨
      r.targetType = ReportTargetType.user := Or.inl htype
  refine ⟨?_, ?_, ?_, ?_, ?_, ?_, ?_⟩ <;>
    simp [resolveModerationAction, hr, hstat, ht, husr, htype, targetTypeStr]

/-! Component lemmas for the severity handlers and the metrics update. -/

@[simp] theorem handleHighSeverity_processed (env : Env) (mid uid cid : String)
    (sr : ScanResult) (text : List Char) (s : WorldState) :
    (handleHighSeverity env mid uid cid sr text s).processed = s.processed := by
  simp [handleHighSeverity]

@[simp] theorem handleHighSeverity_audits (env : Env) (mid uid cid : String)
    (sr : ScanResult) (text : List Char) (s : WorldState) :
    (handleHighSeverity env mid uid cid sr text s).audits =
      s.audits ++ [⟨"message_moderated_high", Option.none, mid, env.now⟩] := by
  simp [handleHighSeverity]

@[simp] theorem handleMediumSeverity_processed (env : Env) (mid uid cid : String)
    (sr : ScanResult) (text : List Char) (s : WorldState) :
    (handleMediumSeverity env mid uid cid sr text s).processed = s.processed := by
  simp [handleMediumSeverity]

@[simp] theorem handleMediumSeverity_audits (env : Env) (mid uid cid : String)
    (sr : ScanResult) (text : List Char) (s : WorldState) :
    (handleMediumSeverity env mid uid cid sr text s).audits =
      s.audits ++ [⟨"message_flagged_medium", Option.none, mid, env.now⟩] := by
  simp [handleMediumSeverity]

@[simp] theorem handleLowSeverity_processed (env : Env) (mid uid cid : String)
    (sr : ScanResult) (text : List Char) (s : WorldState) :
    (handleLowSeverity env mid uid cid sr text s).processed = s.processed := by
  simp [handleLowSeverity]

@[simp] theorem handleLowSeverity_audits (env : Env) (mid uid cid : String)
    (sr : ScanResult) (text : List Char) (s : WorldState) :
    (handleLowSeverity env mid uid cid sr text s).audits = s.audits := by
  simp [handleLowSeverity]

@[simp] theorem updateMetricsAndChatRoom_processed (env : Env) (cid : String)
    (s : WorldState) :
    (updateMetricsAndChatRoom env cid s).processed = s.processed := by
  simp [updateMetricsAndChatRoom]

@[simp] theorem updateMetricsAndChatRoom_audits (env : Env) (cid : String)
    (s : WorldState) :
    (updateMetricsAndChatRoom env cid s).audits = s.audits := by
  simp [updateMetricsAndChatRoom]

@[simp] theorem updateMetricsAndChatRoom_errorLogs (env : Env) (cid : String)
    (s : WorldState) :
    (updateMetricsAndChatRoom env cid s).errorLogs = s.errorLogs := by
  simp [updateMetricsAndChatRoom]

@[simp] theorem updateMetricsAndChatRoom_trace (env : Env) (cid : String)
    (s : WorldState) :
    (updateMetricsAndChatRoom env cid s).trace =
      s.trace ++ [Effect.roomActivityUpdate cid, Effect.metricsUpsert env.day] := by
  simp [updateMetricsAndChatRoom]

@[simp] theorem handleHighSeverity_trace (env : Env) (mid uid cid : String)
    (sr : ScanResult) (text : List Char) (s : WorldState) :
    (handleHighSeverity env mid uid cid sr text s).trace = s.trace ++
      [Effect.queueCreate s.nextId 3, Effect.reportCreate (s.nextId + 1),
       Effect.deleteMessageCall mid true (!env.deleteFails),
       Effect.notifyModeratorsCall (!env.notifyFails),
       Effect.sendCrisisResourcesCall uid (!env.crisisFails),
       Effect.incFlaggedCount cid, Effect.auditCreate "message_moderated_high"] := by
  simp [handleHighSeverity]

@[simp] theorem handleMediumSeverity_trace (env : Env) (mid uid cid : String)
    (sr : ScanResult) (text : List Char) (s : WorldState) :
    (handleMediumSeverity env mid uid cid sr text s).trace = s.trace ++
      [Effect.queueCreate s.nextId 2, Effect.flagMessageCall mid (!env.flagFails),
       Effect.incFlaggedCount cid, Effect.auditCreate "message_flagged_medium"] := by
  simp [handleMediumSeverity]

@[simp] theorem handleLowSeverity_trace (env : Env) (mid uid cid : String)
    (sr : ScanResult) (text : List Char) (s : WorldState) :
    (handleLowSeverity env mid uid cid sr text s).trace =
      s.trace ++ [Effect.queueCreate s.nextId 1] := by
  simp [handleLowSeverity]

theorem handleHighSeverity_errorLogs_prefix (env : Env) (mid uid cid : String)
    (sr : ScanResult) (text : List Char) (s : WorldState) :
    s.errorLogs <+: (handleHighSeverity env mid uid cid sr text s).errorLogs := by
  cases hd : env.deleteFails <;> cases hn : env.notifyFails <;>
    cases hc : env.crisisFails <;>
    simp [handleHighSeverity, hd, hn, hc, List.prefix_append]

theorem handleMediumSeverity_errorLogs_prefix (env : Env) (mid uid cid : String)
    (sr : ScanResult) (text : List Char) (s : WorldState) :
    s.errorLogs <+: (handleMediumSeverity env mid uid cid sr text s).errorLogs := by
  cases hf : env.flagFails <;>
    simp [handleMediumSeverity, hf, List.prefix_append]

@[simp] theorem handleLowSeverity_errorLogs (env : Env) (mid uid cid : String)
    (sr : ScanResult) (text : List Char) (s : WorldState) :
    (handleLowSeverity env mid uid cid sr text s).errorLogs = s.errorLogs := by
  simp [handleLowSeverity]

theorem dispatchSeverity_processed (env : Env) (msg : InboundMessage)
    (sr : ScanResult) (s2 : WorldState) :
    (dispatchSeverity env msg sr s2).processed = s2.processed := by
  unfold dispatchSeverity
  split_ifs <;> simp

theorem dispatchSeverity_audits (env : Env) (msg : InboundMessage)
    (sr : ScanResult) (s2 : WorldState) :
    ∃ A, (dispatchSeverity env msg sr s2).audits = s2.audits ++ A ∧
      (∀ a ∈ A, a.target = msg.id) ∧ A.length ≤ 1 := by
  unfold dispatchSeverity
  split_ifs
  · refine ⟨[⟨"message_moderated_high", Option.none, msg.id, env.now⟩], by simp, ?_, by simp⟩
    intro a ha
    rw [List.mem_singleton] at ha
    subst ha
    rfl
  · refine ⟨[⟨"message_flagged_medium", Option.none, msg.id, env.now⟩], by simp, ?_, by simp⟩
    intro a ha
    rw [List.mem_singleton] at ha
    subst ha
    rfl
  · exact ⟨[], by simp, by simp, by simp⟩
  · exact ⟨[], by simp, by simp, by simp⟩

theorem dispatchSeverity_trace_prefix (env : Env) (msg : InboundMessage)
    (sr : ScanResult) (s2 : WorldState) :
    s2.trace <+: (dispatchSeverity env msg sr s2).trace := by
  unfold dispatchSeverity
  split_ifs <;> simp [List.prefix_append]

theorem dispatchSeverity_errorLogs_prefix (env : Env) (msg : InboundMessage)
    (sr : ScanResult) (s2 : WorldState) :
    s2.errorLogs <+: (dispatchSeverity env msg sr s2).errorLogs := by
  unfold dispatchSeverity
  split_ifs
  · exact handleHighSeverity_errorLogs_prefix env msg.id msg.userId msg.cid sr msg.text s2
  · exact handleMediumSeverity_errorLogs_prefix env msg.id msg.userId msg.cid sr msg.text s2
  · simp
  · simp

/-! The per-id decision-audit invariant of the event router. -/

/-- Number of automated decision audit records (HIGH or MEDIUM) that target
a given message id. -/
def decisionAuditCount (mid : String) (audits : List AuditEntry) : Nat :=
  (audits.filter (fun a => decide (a.target = mid) &&
    (decide (a.action = "message_moderated_high") ||
     decide (a.action = "message_flagged_medium")))).length

theorem decisionAuditCount_append (mid : String) (A B : List AuditEntry) :
    decisionAuditCount mid (A ++ B) =
      decisionAuditCount mid A + decisionAuditCount mid B := by
  simp [decisionAuditCount, List.filter_append]

theorem decisionAuditCount_le_length (mid : String) (A : List AuditEntry) :
    decisionAuditCount mid A ≤ A.length :=
  List.length_filter_le _ A

theorem decisionAuditCount_eq_zero_of_ne (mid : String) (A : List AuditEntry)
    (h : ∀ a ∈ A, a.target ≠ mid) : decisionAuditCount mid A = 0 := by
  unfold decisionAuditCount
  rw [List.length_eq_zero, List.filter_eq_nil_iff]
  intro a ha hc
  rw [Bool.and_eq_true, decide_eq_true_iff] at hc
  exact h a ha hc.1

/-- A webhook invocation whose storage (lookup and insert) does not fail. -/
def faultFree (env : Env) : Prop :=
  env.lookupFault = false ∧ env.insertFault = Option.none

/-- Sequential runs of the webhook handler over a list of inbound events. -/
def runWebhooks (evs : List (Env × WebhookRequest)) (s : WorldState) : WorldState :=
  evs.foldl (fun st p => (handleStreamWebhook p.1 p.2 st).2) s

/-- The router invariant: per message id at most one decision audit record,
and a decision audit record exists only for ids recorded as processed. -/
def PipelineInv (s : WorldState) : Prop :=
  ∀ mid, decisionAuditCount mid s.audits ≤ 1 ∧
    (1 ≤ decisionAuditCount mid s.audits → mid ∈ s.processed)

theorem inv_extend (s : WorldState) (mid : String) (A : List AuditEntry)
    (s2 : WorldState) (h : PipelineInv s) (hnm : mid ∉ s.processed)
    (hproc : s2.processed = mid :: s.processed)
    (haud : s2.audits = s.audits ++ A)
    (hA : ∀ a ∈ A, a.target = mid) (hAlen : A.length ≤ 1) :
    PipelineInv s2 := by
  intro mid2
  rw [haud, decisionAuditCount_append, hproc]
  by_cases heq : mid2 = mid
  · subst heq
    have h0 : decisionAuditCount mid2 s.audits = 0 := by
      rcases Nat.eq_zero_or_pos (decisionAuditCount mid2 s.audits) with hz | hp
      · exact hz
      · exact absurd ((h mid2).2 hp) hnm
    rw [h0]
    have hc := decisionAuditCount_le_length mid2 A
    exact ⟨by omega, fun _ => List.mem_cons_self _ _⟩
  · have hA0 : decisionAuditCount mid2 A = 0 :=
      decisionAuditCount_eq_zero_of_ne mid2 A
        (fun a ha => by rw [hA a ha]; exact fun hx => heq hx.symm)
    rw [hA0]
    obtain ⟨hle, hmem⟩ := h mid2
    exact ⟨by omega, fun hge => List.mem_cons_of_mem _ (hmem (by omega))⟩

theorem processMessage_preserves_inv (env : Env) (msg : InboundMessage)
    (s : WorldState) (hff : faultFree env) (h : PipelineInv s) :
    PipelineInv (processMessageCreated env msg s) := by
  obtain ⟨hlk, hins⟩ := hff
  by_cases hchk : s.processed.contains msg.id = true
  · have hmemP : msg.id ∈ s.processed := by simpa using hchk
    have hpm : processMessageCreated env msg s = s := by
      simp [processMessageCreated, isProcessed, hlk, hmemP]
    rw [hpm]
    exact h
  · have hnm : msg.id ∉ s.processed := by simpa using hchk
    have hs1 : markProcessed env msg.id s =
        emit (Effect.processedInsert msg.id) { s with processed := msg.id :: s.processed } := by
      simp [markProcessed, createProcessedRecord, hnm, hins]
    have hpm : processMessageCreated env msg s =
        updateMetricsAndChatRoom env msg.cid
          (dispatchSeverity env msg (env.scan msg.text)
            (emit (Effect.scanCall msg.text)
              (emit (Effect.processedInsert msg.id)
                { s with processed := msg.id :: s.processed }))) := by
      simp [processMessageCreated, isProcessed, hlk, hnm, hs1]
    obtain ⟨A, hauds, hA, hAlen⟩ := dispatchSeverity_audits env msg (env.scan msg.text)
      (emit (Effect.scanCall msg.text)
        (emit (Effect.processedInsert msg.id)
          { s with processed := msg.id :: s.processed }))
    refine inv_extend s msg.id A _ h hnm ?_ ?_ hA hAlen
    · rw [hpm, updateMetricsAndChatRoom_processed, dispatchSeverity_processed]
      rfl
    · rw [hpm, updateMetricsAndChatRoom_audits, hauds]
      rfl

theorem webhook_preserves_inv (env : Env) (req : WebhookRequest) (s : WorldState)
    (hff : faultFree env) (h : PipelineInv s) :
    PipelineInv (handleStreamWebhook env req s).2 := by
  unfold handleStreamWebhook
  cases hsig : req.hasSignature
  · simpa using h
  · cases hval : req.signatureValid
    · simpa using h
    · cases hm : req.message with
      | none => simpa using h
      | some msg =>
        by_cases het : req.eventType = "message.new"
        · simpa [het] using processMessage_preserves_inv env msg s hff h
        · simpa [het] using h

theorem initialState_inv : PipelineInv initialState := by
  intro mid
  constructor
  · simp [initialState, decisionAuditCount]
  · intro hge
    simp [initialState, decisionAuditCount] at hge

theorem runWebhooks_inv (evs : List (Env × WebhookRequest)) (s : WorldState)
    (hff : ∀ p ∈ evs, faultFree p.1) (h : PipelineInv s) :
    PipelineInv (runWebhooks evs s) := by
  induction evs generalizing s with
  | nil => exact h
  | cons p rest ih =>
    exact ih _ (fun x hx => hff x (List.mem_cons_of_mem _ hx))
      (webhook_preserves_inv p.1 p.2 s (hff p (List.mem_cons_self _ _)) h)

/-- C1: an inbound message.new event whose id the idempotency check reports
as already processed terminates the pipeline with no further action — the
returned state is exactly the input state, so the classifier is not
invoked and no queue item, report, audit record or provider call is
produced; and over any fault-free run from the initial state, at most one
decision audit record is ever produced per message id. -/
theorem claim_C1_duplicate_noop_single_decision (env : Env) (msg : InboundMessage)
    (s : WorldState) (evs : List (Env × WebhookRequest))
    (hdup : (isProcessed env msg.id s).1 = true)
    (hff : ∀ p ∈ evs, faultFree p.1) :
    processMessageCreated env msg s = s ∧
    ∀ mid, decisionAuditCount mid (runWebhooks evs initialState).audits ≤ 1 := by
  constructor
  · have hlk : env.lookupFault = false := by
      cases hl : env.lookupFault
      · rfl
      · simp [isProcessed, hl] at hdup
    have hmem : s.processed.contains msg.id = true := by
      simpa [isProcessed, hlk] using hdup
    have hmemP : msg.id ∈ s.processed := by simpa using hmem
    simp [processMessageCreated, isProcessed, hlk, hmemP]
  · exact fun mid => (runWebhooks_inv evs initialState hff initialState_inv mid).1

def noScanResult : ScanResult := ⟨KeywordSeverity.none, [], 0⟩

def cexEnvC2 : Env :=
  ⟨false, Option.some 5, fun _ => noScanResult, false, false, false, false, 1000,
    "2026-01-01"⟩

def cexMsgC2 : InboundMessage := ⟨"m1", "hello".toList, "u1", "c1"⟩

def cexReqC2 : WebhookRequest := ⟨true, true, "message.new", Option.some cexMsgC2⟩

/-- C2 counterexample: with a non-duplicate storage error (code 5) injected
into the idempotency insert for a fresh message id, the event is
acknowledged as successfully processed (HTTP 200, success = true) and the
pipeline continues to the classifier — refuting the claim that the failure
propagates out of the pipeline and the event is reported as failed. -/
theorem claim_C2_counterexample :
    (handleStreamWebhook cexEnvC2 cexReqC2 initialState).1 = (200, true) ∧
    Effect.scanCall "hello".toList ∈
      (handleStreamWebhook cexEnvC2 cexReqC2 initialState).2.trace := by
  constructor
  · rfl
  · decide

/-- C2 (amended): a storage error in the idempotency insert that is not a
duplicate-key conflict is caught and logged inside `markProcessed` and does
not propagate: no processed record is persisted, the pipeline continues to
the classifier and dispatch, and the webhook acknowledges the event as
successfully processed rather than reporting it failed. -/
theorem claim_C2_insert_fault_swallowed (env : Env) (msg : InboundMessage)
    (s : WorldState) (code : Nat) (req : WebhookRequest)
    (hins : env.insertFault = Option.some code) (hcode : code ≠ 11000)
    (hlk : env.lookupFault = false) (hnp : msg.id ∉ s.processed)
    (hsig : req.hasSignature = true) (hval : req.signatureValid = true)
    (het : req.eventType = "message.new") (hm : req.message = Option.some msg) :
    (processMessageCreated env msg s).processed = s.processed ∧
    Effect.scanCall msg.text ∈ (processMessageCreated env msg s).trace ∧
    "Error marking message as processed" ∈ (processMessageCreated env msg s).errorLogs ∧
    (handleStreamWebhook env req s).1 = (200, true) := by
  have hs1 : markProcessed env msg.id s =
      logError "Error marking message as processed" s := by
    simp [markProcessed, createProcessedRecord, hnp, hins, hcode]
  have hpm : processMessageCreated env msg s =
      updateMetricsAndChatRoom env msg.cid
        (dispatchSeverity env msg (env.scan msg.text)
          (emit (Effect.scanCall msg.text)
            (logError "Error marking message as processed" s))) := by
    simp [processMessageCreated, isProcessed, hlk, hnp, hs1]
  have hpre := dispatchSeverity_trace_prefix env msg (env.scan msg.text)
    (emit (Effect.scanCall msg.text)
      (logError "Error marking message as processed" s))
  have hpre2 := dispatchSeverity_errorLogs_prefix env msg (env.scan msg.text)
    (emit (Effect.scanCall msg.text)
      (logError "Error marking message as processed" s))
  refine ⟨?_, ?_, ?_, ?_⟩
  · rw [hpm, updateMetricsAndChatRoom_processed, dispatchSeverity_processed]
    rfl
  · rw [hpm, updateMetricsAndChatRoom_trace]
    apply List.mem_append_left
    apply hpre.sublist.subset
    simp
  · rw [hpm, updateMetricsAndChatRoom_errorLogs]
    apply hpre2.sublist.subset
    simp
  · simp [handleStreamWebhook, hsig, hval, hm, het]

end Pipeline

namespace Scanner

def c8Keyword : ModerationKeyword := ⟨['x'], KeywordSeverity.low, KeywordAction.flag, false⟩

/-- C8 counterexample: with an empty cache stamped 1 second ago (well under
the 5-minute TTL) and force = false, `loadKeywords` performs a storage read
and returns the freshly read set rather than the cached one — refuting the
claim that whenever force is false and the cache age is under the TTL the
cached set is returned without a storage read. -/
theorem claim_C8_counterexample :
    (loadKeywords ⟨1000, Except.ok [c8Keyword]⟩ false ⟨[], Option.some 0⟩).2.2 = true ∧
    (loadKeywords ⟨1000, Except.ok [c8Keyword]⟩ false ⟨[], Option.some 0⟩).1 ≠ [] := by
  refine ⟨rfl, ?_⟩
  decide

/-- C8 (amended): when force is false, the cache is non-empty, and the cache
age is under the 5-minute TTL, the cached set is returned without a storage
read; otherwise storage is re-read and the cache replaced with the fresh
set, which is returned; and when the storage read fails, the last-known
cached set is returned (even if stale) instead of the failure propagating. -/
theorem claim_C8_load_cache_behaviour (env : RegistryEnv) (force : Bool)
    (st : ScannerCache) :
    (force = false → st.cache ≠ [] →
      (∀ last, st.lastCacheUpdate = Option.some last → env.now - last < cacheTTL →
        loadKeywords env force st = (st.cache, st, false))) ∧
    (cacheValid env force st = false →
      (∀ kws, env.dbFind = Except.ok kws →
        loadKeywords env force st = (kws, ⟨kws, Option.some env.now⟩, true))) ∧
    (cacheValid env force st = false →
      (∀ e, env.dbFind = Except.error e →
        loadKeywords env force st = (st.cache, st, true))) := by
  refine ⟨?_, ?_, ?_⟩
  · intro hf hne last hlast httl
    have hv : cacheValid env force st = true := by
      simp [cacheValid, hf, hlast, httl, List.length_pos.mpr hne]
    simp [loadKeywords, hv]
  · intro hv kws hdb
    simp [loadKeywords, hv, hdb]
  · intro hv e hdb
    simp [loadKeywords, hv, hdb]

/-! Concrete fixtures: the seeded rule set and texts of the repository's
test suite. -/

def noRegexEnv : ScanEnv := ⟨fun _ _ => Except.ok Option.none⟩

def kwSuicide : ModerationKeyword := ⟨"suicide".toList, .high, .escalate, false⟩

def kwKillMyself : ModerationKeyword := ⟨"kill myself".toList, .high, .escalate, false⟩

def kwDepressed : ModerationKeyword := ⟨"depressed".toList, .medium, .flag, false⟩

def kwStressed : ModerationKeyword := ⟨"stressed".toList, .low, .flag, false⟩

def witRules : List ModerationKeyword := [kwSuicide, kwKillMyself, kwDepressed, kwStressed]

def witTextC5 : List Char := "I am thinking about suicide".toList

theorem claim_C5_witness :
    scanText noRegexEnv witRules (witTextC5.map toUpperJS) =
      scanText noRegexEnv witRules witTextC5 ∧
    scanText noRegexEnv witRules ([] ++ witTextC5 ++ "!!!".toList) =
      scanText noRegexEnv witRules witTextC5 :=
  claim_C5_case_punctuation_insensitive noRegexEnv witRules witTextC5 "!!!".toList []
    (by decide) (by decide) (by decide)

theorem claim_C6_witness :
    (∀ p, litFind "kill myself".toList "i want to kill myself".toList = Option.some p →
      wholePhraseAt "kill myself".toList "i want to kill myself".toList p) ∧
    ((∃ i, wholePhraseAt "kill myself".toList "i want to kill myself".toList i) →
      ∃ p, litFind "kill myself".toList "i want to kill myself".toList = Option.some p) ∧
    (∀ env : ScanEnv, ∀ k : ModerationKeyword, k.isRegex = false →
      scanKeyword env k "i want to kill myself".toList =
        Except.ok (litFind k.word "i want to kill myself".toList)) :=
  claim_C6_literal_whole_word "kill myself".toList "i want to kill myself".toList
    (by decide) (by decide) (by decide)

end Scanner

namespace Pipeline

def witEnvC1 : Env :=
  ⟨false, Option.none, fun _ => noScanResult, false, false, false, false, 0, "d"⟩

def witMsgC1 : InboundMessage := ⟨"m1", "hi".toList, "u1", "c1"⟩

def witStateC1 : WorldState := { initialState with processed := ["m1"] }

theorem claim_C1_witness :
    processMessageCreated witEnvC1 witMsgC1 witStateC1 = witStateC1 ∧
    ∀ mid, decisionAuditCount mid (runWebhooks [] initialState).audits ≤ 1 :=
  claim_C1_duplicate_noop_single_decision witEnvC1 witMsgC1 witStateC1 []
    (by rfl) (by simp)

theorem claim_C2_witness :
    (processMessageCreated cexEnvC2 cexMsgC2 initialState).processed =
      initialState.processed ∧
    (handleStreamWebhook cexEnvC2 cexReqC2 initialState).1 = (200, true) :=
  ⟨(claim_C2_insert_fault_swallowed cexEnvC2 cexMsgC2 initialState 5 cexReqC2
      rfl (by decide) rfl (by simp [initialState]) rfl rfl rfl rfl).1,
   (claim_C2_insert_fault_swallowed cexEnvC2 cexMsgC2 initialState 5 cexReqC2
      rfl (by decide) rfl (by simp [initialState]) rfl rfl rfl rfl).2.2.2⟩

def witREnv : ResolveEnv := ⟨42, false, false⟩

def witReportOpen : Report :=
  ⟨1, ReportTargetType.message, "m1", [], ReportStatus.opened,
    Option.none, Option.none, Option.none⟩

def witReportRes : Report :=
  ⟨1, ReportTargetType.message, "m1", [], ReportStatus.resolved,
    Option.none, Option.none, Option.none⟩

def witQueueOpen : QueueItem := ⟨2, "m1", "u1", "c1", [], [], 3, false, Option.none⟩

def witQueueDone : QueueItem := ⟨2, "m1", "u1", "c1", [], [], 3, true, Option.none⟩

def witStateOpen : WorldState :=
  { initialState with reports := [witReportOpen], queue := [witQueueOpen] }

def witStateRes : WorldState :=
  { initialState with reports := [witReportRes], queue := [witQueueDone] }

theorem claim_C3_witness :
    resolveModerationAction witREnv "mod1" 1 ModerationAction.dismiss
        Option.none Option.none witStateRes =
      (Except.error ResolveErr.alreadyResolved, witStateRes) ∧
    (∃ d, (resolveModerationAction witREnv "mod1" 1 ModerationAction.dismiss
        Option.none Option.none witStateOpen).1 = Except.ok d) ∧
    processQueueItem witREnv "mod1" 2 witStateRes =
      (Except.error ResolveErr.alreadyProcessed, witStateRes) ∧
    (processQueueItem witREnv "mod1" 2 witStateOpen).1 = Except.ok () :=
  ⟨(claim_C3_resolution_exactly_once witREnv "mod1" 1 ModerationAction.dismiss
      Option.none Option.none 2 witStateRes witReportRes witQueueDone rfl rfl).1 rfl,
   ((claim_C3_resolution_exactly_once witREnv "mod1" 1 ModerationAction.dismiss
      Option.none Option.none 2 witStateOpen witReportOpen witQueueOpen rfl rfl).2.1
      (by decide) (by decide)).1,
   (claim_C3_resolution_exactly_once witREnv "mod1" 1 ModerationAction.dismiss
      Option.none Option.none 2 witStateRes witReportRes witQueueDone rfl rfl).2.2.1 rfl,
   ((claim_C3_resolution_exactly_once witREnv "mod1" 1 ModerationAction.dismiss
      Option.none Option.none 2 witStateOpen witReportOpen witQueueOpen rfl rfl).2.2.2
      rfl).1⟩

theorem claim_C10_witness :
    (resolveModerationAction witREnv "mod1" 1 ModerationAction.banUser
        Option.none Option.none witStateOpen).1 = Except.ok detailsNone ∧
    (resolveModerationAction witREnv "mod1" 1 ModerationAction.banUser
        Option.none Option.none witStateOpen).2.users = witStateOpen.users :=
  ⟨(claim_C10_ban_message_target_no_user witREnv "mod1" 1 Option.none Option.none
      witStateOpen witReportOpen rfl (by decide) rfl rfl).1,
   (claim_C10_ban_message_target_no_user witREnv "mod1" 1 Option.none Option.none
      witStateOpen witReportOpen rfl (by decide) rfl rfl).2.1⟩

end Pipeline

end MindSupport
